import Mathlib

/-!
Verification of the nv-rom-parser core against its specification.

This file gives a shallow embedding, in Lean 4, of the algorithmic core of
the `nv-rom-parser` repository (Rust):

* `src/cursor.rs` — the `ContinuousRegionReader` address-translating cursor
  (position classification, `Read::read`, `Seek::seek`);
* `src/lib.rs` — the 512-byte-stride `RegionIterator` scanner with its
  speculative decode-and-rewind discovery (`read_region`), and the
  `RegionStructureIterator`;
* `src/firmware.rs` — the bundle assembler (`FirmwareBundleInfo::parse`) and
  the per-unit structure processing / pointer-chase dispatch
  (`parse_legacy_pci_image_info`);
* the binary region decoders in `src/pci_legacy.rs`, `src/pci_efi.rs`,
  `src/nvidia.rs` and `src/nvidia/nbsi.rs` as far as the scanner invokes
  them.

The underlying `AddressableSource` is modelled as a `List Nat` of bytes
together with an explicit cursor position; `std::io` errors are modelled with
`Except String`.  Machine integers (`u64` positions and lengths) are modelled
with `Nat`: none of the verified properties exercises wrap-around at
`u64::MAX`, and Rust subtraction sites are mirrored at positions where the
source code guarantees no underflow.
-/

set_option maxHeartbeats 1000000
set_option maxRecDepth 100000

instance {ε α : Type} [DecidableEq ε] [DecidableEq α] :
    DecidableEq (Except ε α) := fun x y =>
  match x, y with
  | .ok a, .ok b =>
      if h : a = b then .isTrue (by rw [h])
      else .isFalse (fun hx => by cases hx; exact h rfl)
  | .error a, .error b =>
      if h : a = b then .isTrue (by rw [h])
      else .isFalse (fun hx => by cases hx; exact h rfl)
  | .ok _, .error _ => .isFalse (fun hx => by cases hx)
  | .error _, .ok _ => .isFalse (fun hx => by cases hx)

namespace NvRom

/-! ## Data model: `FirmwareRegion` (trait `FirmwareRegion` in `src/lib.rs`)

For the cursor (`ContinuousRegionReader`) the only interface of a region is
the `FirmwareRegion` trait: `offset_in_firmware` and `region_size` (and the
derived `end_offset_in_firmware`).  We model that interface directly. -/

structure FirmwareRegion where
  offset_in_firmware : Nat
  region_size : Nat
deriving DecidableEq, Repr

/-- Default trait method `end_offset_in_firmware` from `src/lib.rs`. -/
def FirmwareRegion.end_offset_in_firmware (r : FirmwareRegion) : Nat :=
  r.offset_in_firmware + r.region_size

/-! ## `ContinuousRegionReader` (`src/cursor.rs`)

The reader owns a source (`data : List Nat` plus a raw cursor position) and a
list of regions.  `new` sorts the regions ascending by `offset_in_firmware`
(Rust `regions.sort_by_key(|r| r.offset_in_firmware())`). -/

inductive ReaderPositionInfo where
  | beforeFirstRegion
  | inRegion (region : FirmwareRegion) (region_index : Nat) (offset : Nat)
      (translated_position : Nat)
  | betweenRegions
  | afterLastRegion (translated_position : Nat)
deriving DecidableEq, Repr

inductive SeekFrom where
  | start : Nat → SeekFrom
  | fromEnd : Int → SeekFrom
  | current : Int → SeekFrom
deriving DecidableEq, Repr

/-- The sort key relation of `ContinuousRegionReader::new`
(`sort_by_key(|r| r.offset_in_firmware())`). -/
def region_le (a b : FirmwareRegion) : Prop :=
  a.offset_in_firmware ≤ b.offset_in_firmware

instance : DecidableRel region_le := fun _ _ => Nat.decLe _ _

instance : IsTotal FirmwareRegion region_le := ⟨fun _ _ => Nat.le_total _ _⟩

instance : IsTrans FirmwareRegion region_le := ⟨fun _ _ _ => Nat.le_trans⟩

namespace ContinuousRegionReader

/-- Sorting performed by `ContinuousRegionReader::new`. -/
def new (regions : List FirmwareRegion) : List FirmwareRegion :=
  List.insertionSort region_le regions

/-- The loop body of `ContinuousRegionReader::reader_position_info`.  The
accumulators mirror the Rust locals: `translated_acc` is
`current_region_translated_offset`, `end_offset` is `end_offset_in_firmware`
(the end of the last region inspected so far), `region_index` the enumeration
index. -/
def reader_position_info_loop (firmware_position : Nat) :
    List FirmwareRegion → Nat → Nat → Nat → ReaderPositionInfo
  | [], translated_acc, end_offset, _ =>
      .afterLastRegion (firmware_position - end_offset + translated_acc)
  | region :: rest, translated_acc, _, region_index =>
      if region.end_offset_in_firmware ≤ firmware_position then
        reader_position_info_loop firmware_position rest
          (translated_acc + region.region_size) region.end_offset_in_firmware
          (region_index + 1)
      else if region.offset_in_firmware ≤ firmware_position then
        .inRegion region region_index (firmware_position - region.offset_in_firmware)
          (translated_acc + (firmware_position - region.offset_in_firmware))
      else if translated_acc = 0 then .beforeFirstRegion
      else .betweenRegions

/-- `ContinuousRegionReader::reader_position_info`. -/
def reader_position_info (regions : List FirmwareRegion) (firmware_position : Nat) :
    ReaderPositionInfo :=
  reader_position_info_loop firmware_position regions 0 0 0

/-- `<ContinuousRegionReader as Read>::read`.  The state of the reader is the
raw cursor position `pos` of the underlying source; `buf_len` is the length of
the caller's buffer.  Returns the bytes placed into the buffer and the raw
position of the source afterwards (including the reposition-to-next-region
step), or an `std::io` error.  The underlying `source.read` of a Rust
`Cursor` copies `min (buf length) (remaining bytes)` bytes. -/
def read (data : List Nat) (regions : List FirmwareRegion) (pos : Nat)
    (buf_len : Nat) : Except String (List Nat × Nat) :=
  match reader_position_info regions pos with
  | .inRegion region region_index offset _ =>
      let bytes_left_to_read := region.region_size - offset
      let buf_len := min buf_len bytes_left_to_read
      let bytes := (data.drop pos).take buf_len
      let read_count := bytes.length
      let pos_after := pos + read_count
      let new_pos :=
        if read_count = bytes_left_to_read then
          match regions[region_index + 1]? with
          | some next_region => next_region.offset_in_firmware
          | none => pos_after
        else pos_after
      .ok (bytes, new_pos)
  | .afterLastRegion _ => .ok ([], pos)
  | .beforeFirstRegion => .error "Cannot read before first region!"
  | .betweenRegions => .error "Cannot read between specified regions!"

/-- The region walk of the `SeekFrom::Start` arm of
`<ContinuousRegionReader as Seek>::seek`: returns the raw target
`region.offset_in_firmware + remaining_offset` for the first region with
`region_size > remaining_offset`, or `none` if the loop runs off the end of
the region list. -/
def seek_from_start_loop : List FirmwareRegion → Nat → Option Nat
  | [], _ => none
  | region :: rest, remaining_offset =>
      if region.region_size > remaining_offset then
        some (region.offset_in_firmware + remaining_offset)
      else
        seek_from_start_loop rest (remaining_offset - region.region_size)

/-- `self.regions.last().map(|r| r.end_offset_in_firmware()).unwrap_or(0)`. -/
def last_region_end_offset (regions : List FirmwareRegion) : Nat :=
  match regions.getLast? with
  | some r => r.end_offset_in_firmware
  | none => 0

/-- `self.regions.iter().map(|r| r.region_size()).sum()`. -/
def total_regions_size : List FirmwareRegion → Nat
  | [] => 0
  | r :: rs => r.region_size + total_regions_size rs

/-- The full `SeekFrom::Start` arm: first component is the value the `seek`
call returns (`Ok(from_start)` when the walk lands inside a region, and the
underlying cursor's own `seek` result — the new raw position — when it does
not), second component is the new raw position of the source. -/
def seek_from_start (regions : List FirmwareRegion) (from_start : Nat) : Nat × Nat :=
  match seek_from_start_loop regions from_start with
  | some seek_in_firmware => (from_start, seek_in_firmware)
  | none =>
      let target := last_region_end_offset regions +
        (from_start - total_regions_size regions)
      (target, target)

/-- `<ContinuousRegionReader as Seek>::seek`.  Result: the returned `u64` and
the new raw position of the source.  `checked_add_signed` is modelled over
`Int`: only negativity can occur in the `Nat` model. -/
def seek (regions : List FirmwareRegion) (pos : Nat) :
    SeekFrom → Except String (Nat × Nat)
  | .start from_start => .ok (seek_from_start regions from_start)
  | .fromEnd from_end =>
      let translated : Int := (total_regions_size regions : Int) + from_end
      if 0 ≤ translated then
        .ok (seek_from_start regions translated.toNat)
      else
        .error "Invalid seek to a negative or overflowing position!"
  | .current from_current =>
      match reader_position_info regions pos with
      | .inRegion _ _ _ translated_position =>
          let translated : Int := (translated_position : Int) + from_current
          if 0 ≤ translated then
            .ok (seek_from_start regions translated.toNat)
          else
            .error "Invalid seek to a negative or overflowing position!"
      | .afterLastRegion translated_position =>
          let translated : Int := (translated_position : Int) + from_current
          if 0 ≤ translated then
            .ok (seek_from_start regions translated.toNat)
          else
            .error "Invalid seek to a negative or overflowing position!"
      | .beforeFirstRegion =>
          .error "Cannot relative seek from outside of specified regions!"
      | .betweenRegions =>
          .error "Cannot relative seek from outside of specified regions!"

/-- Raw position reached by `seek(SeekFrom::Start(n))` (which never fails). -/
def raw_position_of (regions : List FirmwareRegion) (n : Nat) : Nat :=
  (seek_from_start regions n).2

/-- The default `Read::read_exact` driver looping over `read`: requests the
whole remaining buffer each round, treats a 0-byte read as end-of-file
(`UnexpectedEof`), propagates errors.  Returns the filled buffer and the raw
source position.  The loop consumes at least one byte per round, so
`read_exact` runs it with fuel equal to the requested length; the
fuel-exhausted arm is unreachable whenever `len ≤ fuel` (each round shrinks
`len` by at least 1 while keeping the fuel). -/
def read_exact_fuel (data : List Nat) (regions : List FirmwareRegion) :
    Nat → Nat → Nat → Except String (List Nat × Nat)
  | _, 0, pos => .ok ([], pos)
  | 0, _ + 1, _ => .error "failed to fill whole buffer"
  | fuel + 1, n + 1, pos =>
    match read data regions pos (n + 1) with
    | .error e => .error e
    | .ok (bytes, pos') =>
      if bytes.length = 0 then .error "failed to fill whole buffer"
      else if n + 1 ≤ bytes.length then .ok (bytes, pos')
      else
        match read_exact_fuel data regions fuel (n + 1 - bytes.length) pos' with
        | .error e => .error e
        | .ok (rest, q) => .ok (bytes ++ rest, q)

/-- `Read::read_exact` over the reader, with the byte count as explicit
argument. -/
def read_exact (data : List Nat) (regions : List FirmwareRegion)
    (len pos : Nat) : Except String (List Nat × Nat) :=
  read_exact_fuel data regions len len pos

end ContinuousRegionReader

/-! ## Mathematical description of the logical stream

`mapped_bytes data regions` is the concatenation of the regions' raw byte
ranges in list order — the reference stream the specification's continuity
and seek/read-equivalence properties compare against. -/

/-- The raw byte range `[offset_in_firmware, offset_in_firmware+region_size)`
of a region, as sliced from the source bytes. -/
def region_slice (data : List Nat) (r : FirmwareRegion) : List Nat :=
  (data.drop r.offset_in_firmware).take r.region_size

/-- Concatenation of the regions' raw byte ranges in list order. -/
def mapped_bytes (data : List Nat) : List FirmwareRegion → List Nat
  | [] => []
  | r :: rs => region_slice data r ++ mapped_bytes data rs

/-! ## Well-formedness of a region list

`regions_chain lo rs` says the regions are sorted ascending by offset and
non-overlapping, with every offset at least `lo` (the end of the previous
region).  `regions_within len rs` bounds every region inside the source.
These are the hypotheses under which the specification states its cursor
properties ("ordered, assumed-non-overlapping region set"). -/

def regions_chain : Nat → List FirmwareRegion → Prop
  | _, [] => True
  | lo, r :: rs =>
      lo ≤ r.offset_in_firmware ∧ regions_chain r.end_offset_in_firmware rs

instance regions_chain.decidable : (lo : Nat) → (rs : List FirmwareRegion) →
    Decidable (regions_chain lo rs)
  | _, [] => .isTrue trivial
  | lo, r :: rs =>
      have := regions_chain.decidable r.end_offset_in_firmware rs
      inferInstanceAs (Decidable (_ ∧ _))

def regions_within (len : Nat) (rs : List FirmwareRegion) : Prop :=
  ∀ r ∈ rs, r.end_offset_in_firmware ≤ len

instance regions_within.decidable (len : Nat) (rs : List FirmwareRegion) :
    Decidable (regions_within len rs) :=
  inferInstanceAs (Decidable (∀ r ∈ rs, r.end_offset_in_firmware ≤ len))

def regions_positive (rs : List FirmwareRegion) : Prop :=
  ∀ r ∈ rs, 0 < r.region_size

instance regions_positive.decidable (rs : List FirmwareRegion) :
    Decidable (regions_positive rs) :=
  inferInstanceAs (Decidable (∀ r ∈ rs, 0 < r.region_size))

/-! ## Locating a logical position inside the region list

`locate rs p` finds the region containing logical position `p`: the region,
its index, and the local offset of `p` inside it.  It is the common
mathematical skeleton behind both the `SeekFrom::Start` walk and the
position classifier, and the basis of all cursor proofs below. -/

def locate : List FirmwareRegion → Nat → Option (FirmwareRegion × Nat × Nat)
  | [], _ => none
  | r :: rs, p =>
      if p < r.region_size then some (r, 0, p)
      else
        match locate rs (p - r.region_size) with
        | none => none
        | some (r', k, d) => some (r', k + 1, d)

/-- Case analysis principle for `locate` on a nonempty region list. -/
theorem locate_cons_elim {r0 : FirmwareRegion} {rs : List FirmwareRegion}
    {p : Nat} {r : FirmwareRegion} {k d : Nat}
    (h : locate (r0 :: rs) p = some (r, k, d)) :
    (p < r0.region_size ∧ r = r0 ∧ k = 0 ∧ d = p) ∨
    (¬ p < r0.region_size ∧ ∃ k', k = k' + 1 ∧
      locate rs (p - r0.region_size) = some (r, k', d)) := by
  by_cases h0 : p < r0.region_size
  · rw [locate, if_pos h0] at h
    simp only [Option.some.injEq, Prod.mk.injEq] at h
    exact Or.inl ⟨h0, h.1.symm, h.2.1.symm, h.2.2.symm⟩
  · rw [locate, if_neg h0] at h
    cases hrec : locate rs (p - r0.region_size) with
    | none => rw [hrec] at h; simp at h
    | some x =>
        obtain ⟨r', k', d'⟩ := x
        rw [hrec] at h
        simp only [Option.some.injEq, Prod.mk.injEq] at h
        obtain ⟨h1, h2, h3⟩ := h
        subst h1; subst h3
        exact Or.inr ⟨h0, k', h2.symm, rfl⟩

section CursorLemmas

open ContinuousRegionReader

theorem locate_isSome {rs : List FirmwareRegion} {p : Nat}
    (hp : p < total_regions_size rs) :
    ∃ r k d, locate rs p = some (r, k, d) := by
  induction rs generalizing p with
  | nil => simp [total_regions_size] at hp
  | cons r rs ih =>
      by_cases h : p < r.region_size
      · exact ⟨r, 0, p, by simp [locate, h]⟩
      · have hp' : p - r.region_size < total_regions_size rs := by
          simp [total_regions_size] at hp; omega
        obtain ⟨r', k, d, hl⟩ := ih hp'
        exact ⟨r', k + 1, d, by simp [locate, h, hl]⟩

theorem locate_spec {rs : List FirmwareRegion} {p : Nat}
    {r : FirmwareRegion} {k d : Nat} (h : locate rs p = some (r, k, d)) :
    d < r.region_size ∧ rs[k]? = some r := by
  induction rs generalizing p k with
  | nil => simp [locate] at h
  | cons r0 rs ih =>
      rcases locate_cons_elim h with ⟨h0, rfl, rfl, rfl⟩ | ⟨h0, k', rfl, hk'⟩
      · exact ⟨h0, by simp⟩
      · obtain ⟨hd, hget⟩ := ih hk'
        exact ⟨hd, by simpa using hget⟩

theorem locate_seek_loop {rs : List FirmwareRegion} {p : Nat}
    {r : FirmwareRegion} {k d : Nat} (h : locate rs p = some (r, k, d)) :
    seek_from_start_loop rs p = some (r.offset_in_firmware + d) := by
  induction rs generalizing p k with
  | nil => simp [locate] at h
  | cons r0 rs ih =>
      rcases locate_cons_elim h with ⟨h0, rfl, rfl, rfl⟩ | ⟨h0, k', rfl, hk'⟩
      · simp [seek_from_start_loop, h0]
      · simp [seek_from_start_loop, show ¬ (r0.region_size > p) from h0]
        exact ih hk'

theorem locate_lower_bound {rs : List FirmwareRegion} {lo p : Nat}
    {r : FirmwareRegion} {k d : Nat} (hc : regions_chain lo rs)
    (h : locate rs p = some (r, k, d)) : lo ≤ r.offset_in_firmware := by
  induction rs generalizing p k lo with
  | nil => simp [locate] at h
  | cons r0 rs ih =>
      obtain ⟨hlo, hc'⟩ := hc
      rcases locate_cons_elim h with ⟨h0, rfl, rfl, rfl⟩ | ⟨h0, k', rfl, hk'⟩
      · exact hlo
      · have h1 : r0.end_offset_in_firmware ≤ r.offset_in_firmware := ih hc' hk'
        have h2 : r0.offset_in_firmware ≤ r0.end_offset_in_firmware :=
          Nat.le_add_right _ _
        omega

theorem locate_sum {rs : List FirmwareRegion} {p : Nat}
    {r : FirmwareRegion} {k d : Nat} (h : locate rs p = some (r, k, d)) :
    p = total_regions_size (rs.take k) + d := by
  induction rs generalizing p k with
  | nil => simp [locate] at h
  | cons r0 rs ih =>
      rcases locate_cons_elim h with ⟨h0, rfl, rfl, rfl⟩ | ⟨h0, k', rfl, hk'⟩
      · simp [total_regions_size]
      · have := ih hk'
        simp [total_regions_size]
        omega

/-- The position classifier maps the raw address of logical position `p`
to `InRegion` with translated position exactly `p` (plus whatever the
accumulator already holds). -/
theorem locate_classify {rs : List FirmwareRegion} {lo p : Nat}
    {r : FirmwareRegion} {k d : Nat} (hc : regions_chain lo rs)
    (h : locate rs p = some (r, k, d)) (acc e i : Nat) :
    reader_position_info_loop (r.offset_in_firmware + d) rs acc e i =
      .inRegion r (i + k) d (acc + p) := by
  induction rs generalizing p k lo acc e i with
  | nil => simp [locate] at h
  | cons r0 rs ih =>
      obtain ⟨hlo, hc'⟩ := hc
      rcases locate_cons_elim h with ⟨h0, rfl, rfl, rfl⟩ | ⟨h0, k', rfl, hk'⟩
      · have hno : ¬ (r.end_offset_in_firmware ≤ r.offset_in_firmware + d) := by
          simp [FirmwareRegion.end_offset_in_firmware]; omega
        have hyes : r.offset_in_firmware ≤ r.offset_in_firmware + d :=
          Nat.le_add_right _ _
        simp [reader_position_info_loop, hno, hyes]
      · have hlb : r0.end_offset_in_firmware ≤ r.offset_in_firmware :=
          locate_lower_bound hc' hk'
        have hskip : r0.end_offset_in_firmware ≤ r.offset_in_firmware + d :=
          le_trans hlb (Nat.le_add_right _ _)
        rw [reader_position_info_loop]
        simp only [hskip, if_pos]
        rw [ih hc' hk' (acc + r0.region_size) r0.end_offset_in_firmware (i + 1)]
        congr 1 <;> omega

theorem seek_loop_none {rs : List FirmwareRegion} {p : Nat}
    (hp : total_regions_size rs ≤ p) : seek_from_start_loop rs p = none := by
  induction rs generalizing p with
  | nil => simp [seek_from_start_loop]
  | cons r rs ih =>
      simp [total_regions_size] at hp
      have h0 : ¬ (r.region_size > p) := by omega
      simp [seek_from_start_loop, h0]
      exact ih (by omega)

theorem locate_add {rs : List FirmwareRegion} {p : Nat}
    {r : FirmwareRegion} {k d : Nat} (h : locate rs p = some (r, k, d))
    {c : Nat} (hc : d + c < r.region_size) :
    locate rs (p + c) = some (r, k, d + c) := by
  induction rs generalizing p k with
  | nil => simp [locate] at h
  | cons r0 rs ih =>
      rcases locate_cons_elim h with ⟨h0, rfl, rfl, rfl⟩ | ⟨h0, k', rfl, hk'⟩
      · simp [locate, show d + c < r.region_size from hc]
      · have h0' : ¬ (p + c < r0.region_size) := by
          have := locate_spec hk'
          omega
        have heq : p + c - r0.region_size = p - r0.region_size + c := by omega
        rw [locate, if_neg h0', heq, ih hk']

theorem locate_boundary {rs : List FirmwareRegion} {p : Nat}
    {r nx : FirmwareRegion} {k d : Nat} (h : locate rs p = some (r, k, d))
    (hnx : rs[k + 1]? = some nx) (hpos : 0 < nx.region_size) :
    locate rs (p + (r.region_size - d)) = some (nx, k + 1, 0) := by
  induction rs generalizing p k with
  | nil => simp [locate] at h
  | cons r0 rs ih =>
      rcases locate_cons_elim h with ⟨h0, rfl, rfl, rfl⟩ | ⟨h0, k', rfl, hk'⟩
      · have hx : rs[0]? = some nx := by simpa using hnx
        have hne : rs ≠ [] := by
          intro hnil; rw [hnil] at hx; simp at hx
        obtain ⟨nx0, rs', rfl⟩ := List.exists_cons_of_ne_nil hne
        simp at hx
        subst hx
        have h1 : ¬ (d + (r.region_size - d) < r.region_size) := by omega
        have heq : d + (r.region_size - d) - r.region_size = 0 := by omega
        rw [locate, if_neg h1, heq, locate, if_pos hpos]
      · have hnx' : rs[k' + 1]? = some nx := by simpa using hnx
        have hdlt := (locate_spec hk').1
        have h1 : ¬ (p + (r.region_size - d) < r0.region_size) := by omega
        have h2 : p + (r.region_size - d) - r0.region_size =
            p - r0.region_size + (r.region_size - d) := by omega
        rw [locate, if_neg h1, h2, ih hk' hnx']

theorem mapped_bytes_length {data : List Nat} {rs : List FirmwareRegion}
    (hw : regions_within data.length rs) :
    (mapped_bytes data rs).length = total_regions_size rs := by
  induction rs with
  | nil => simp [mapped_bytes, total_regions_size]
  | cons r rs ih =>
      have hr := hw r (by simp)
      have hw' : regions_within data.length rs := fun x hx => hw x (by simp [hx])
      simp [mapped_bytes, region_slice, total_regions_size, ih hw']
      simp [FirmwareRegion.end_offset_in_firmware] at hr
      omega

theorem mapped_bytes_drop {data : List Nat} {rs : List FirmwareRegion} {p : Nat}
    {r : FirmwareRegion} {k d : Nat} (hw : regions_within data.length rs)
    (h : locate rs p = some (r, k, d)) :
    (mapped_bytes data rs).drop p =
      (data.drop (r.offset_in_firmware + d)).take (r.region_size - d) ++
        mapped_bytes data (rs.drop (k + 1)) := by
  induction rs generalizing p k with
  | nil => simp [locate] at h
  | cons r0 rs ih =>
      have hr0 := hw r0 (by simp)
      simp [FirmwareRegion.end_offset_in_firmware] at hr0
      have hlen : (region_slice data r0).length = r0.region_size := by
        simp [region_slice]; omega
      rcases locate_cons_elim h with ⟨h0, rfl, rfl, rfl⟩ | ⟨h0, k', rfl, hk'⟩
      · rw [mapped_bytes, List.drop_append_eq_append_drop]
        have hz : d - (region_slice data r).length = 0 := by omega
        rw [hz, List.drop_zero]
        congr 1
        simp only [region_slice, List.drop_take, List.drop_drop]
      · have hw' : regions_within data.length rs := fun x hx => hw x (by simp [hx])
        rw [mapped_bytes, List.drop_append_eq_append_drop]
        have hz : (region_slice data r0).drop p = [] := by
          apply List.drop_eq_nil_of_le; omega
        rw [hz, List.nil_append, hlen]
        simpa using ih hw' hk'

theorem total_regions_size_append (xs ys : List FirmwareRegion) :
    total_regions_size (xs ++ ys) =
      total_regions_size xs + total_regions_size ys := by
  induction xs with
  | nil => simp [total_regions_size]
  | cons x xs ih => simp [total_regions_size, ih]; omega

theorem total_regions_size_take_le (rs : List FirmwareRegion) (j : Nat) :
    total_regions_size (rs.take j) ≤ total_regions_size rs := by
  conv_rhs => rw [← List.take_append_drop j rs]
  rw [total_regions_size_append]
  omega

theorem getLast?_of_getElem? {rs : List FirmwareRegion} {k : Nat}
    {r : FirmwareRegion} (h : rs[k]? = some r) (h2 : rs[k + 1]? = none) :
    rs.getLast? = some r := by
  have hk : k < rs.length := by
    by_contra hx
    rw [List.getElem?_eq_none (by omega)] at h
    exact Option.noConfusion h
  have hk2 : rs.length ≤ k + 1 := by
    by_contra hx
    rw [List.getElem?_eq_getElem (by omega)] at h2
    exact Option.noConfusion h2
  have hlen : rs.length = k + 1 := by omega
  rw [List.getLast?_eq_getElem?, hlen]
  simpa using h

/-- Full characterization of one `read` call at the raw address of logical
position `p` (located inside region `r`, index `k`, local offset `d`). -/
theorem read_at_located {data : List Nat} {rs : List FirmwareRegion} {p : Nat}
    {r : FirmwareRegion} {k d : Nat}
    (hc : regions_chain 0 rs) (hw : regions_within data.length rs)
    (h : locate rs p = some (r, k, d)) (n : Nat) :
    read data rs (r.offset_in_firmware + d) n =
      .ok (((mapped_bytes data rs).drop p).take (min n (r.region_size - d)),
        if min n (r.region_size - d) = r.region_size - d then
          match rs[k + 1]? with
          | some nx => nx.offset_in_firmware
          | none => r.offset_in_firmware + d + min n (r.region_size - d)
        else r.offset_in_firmware + d + min n (r.region_size - d)) := by
  have hclass := locate_classify hc h 0 0 0
  have hdlt := (locate_spec h).1
  have hget := (locate_spec h).2
  have hrmem : r ∈ rs := by
    obtain ⟨hlt, he⟩ := List.getElem?_eq_some.mp hget
    exact he ▸ List.getElem_mem hlt
  have hrw : r.end_offset_in_firmware ≤ data.length := hw r hrmem
  simp [FirmwareRegion.end_offset_in_firmware] at hrw
  have hbytes_len :
      ((data.drop (r.offset_in_firmware + d)).take
        (min n (r.region_size - d))).length = min n (r.region_size - d) := by
    rw [List.length_take, List.length_drop]
    exact Nat.min_eq_left (le_trans (Nat.min_le_right _ _) (by omega))
  have hbytes :
      (data.drop (r.offset_in_firmware + d)).take (min n (r.region_size - d)) =
        ((mapped_bytes data rs).drop p).take (min n (r.region_size - d)) := by
    rw [mapped_bytes_drop hw h]
    rw [List.take_append_of_le_length, List.take_take,
      Nat.min_eq_left (Nat.min_le_right _ _)]
    rw [List.length_take, List.length_drop]
    exact le_trans (Nat.min_le_right _ _) (by omega)
  unfold ContinuousRegionReader.read ContinuousRegionReader.reader_position_info
  rw [hclass]
  dsimp only
  rw [Nat.zero_add, hbytes_len, hbytes]

/-- One `read` call of a positive byte count at the raw address of a valid
logical position consumes `min n (bytes to the containing region boundary)`
bytes of the logical stream and leaves the raw cursor at the raw address of
the following logical position. -/
theorem read_step {data : List Nat} {rs : List FirmwareRegion} {p n : Nat}
    (hc : regions_chain 0 rs) (hw : regions_within data.length rs)
    (hpos : regions_positive rs) (hp : p < total_regions_size rs)
    (hn : 0 < n) :
    ∃ c, 1 ≤ c ∧ c ≤ n ∧ p + c ≤ total_regions_size rs ∧
      read data rs (raw_position_of rs p) n =
        .ok (((mapped_bytes data rs).drop p).take c,
             raw_position_of rs (p + c)) := by
  obtain ⟨r, k, d, h⟩ := locate_isSome hp
  have hdlt := (locate_spec h).1
  have hget := (locate_spec h).2
  have hsum := locate_sum h
  have hraw : raw_position_of rs p = r.offset_in_firmware + d := by
    rw [raw_position_of, seek_from_start, locate_seek_loop h]
  set c := min n (r.region_size - d) with hc_def
  have hc1 : 1 ≤ c := by omega
  have hcn : c ≤ n := Nat.min_le_left _ _
  have htk : total_regions_size (rs.take (k + 1)) ≤ total_regions_size rs :=
    total_regions_size_take_le rs (k + 1)
  obtain ⟨hklt, hkeq⟩ := List.getElem?_eq_some.mp hget
  have htake : total_regions_size (rs.take (k + 1)) =
      total_regions_size (rs.take k) + r.region_size := by
    rw [List.take_succ, List.getElem?_eq_getElem hklt, hkeq]
    simp [total_regions_size_append, total_regions_size]
  have hbound : p + (r.region_size - d) ≤ total_regions_size rs := by omega
  have hpc : p + c ≤ total_regions_size rs := by omega
  refine ⟨c, hc1, hcn, hpc, ?_⟩
  rw [hraw, read_at_located hc hw h n]
  by_cases hfull : c = r.region_size - d
  · rw [← hc_def, if_pos hfull]
    cases hnx : rs[k + 1]? with
    | some nx =>
        have hnxpos : 0 < nx.region_size := by
          apply hpos
          obtain ⟨hlt, he⟩ := List.getElem?_eq_some.mp hnx
          exact he ▸ List.getElem_mem hlt
        have hb := locate_boundary h hnx hnxpos
        rw [hfull]
        have : raw_position_of rs (p + (r.region_size - d)) =
            nx.offset_in_firmware := by
          rw [raw_position_of, seek_from_start, locate_seek_loop hb]
          show nx.offset_in_firmware + 0 = nx.offset_in_firmware
          omega
        rw [this]
    | none =>
        have hlast : rs.getLast? = some r := getLast?_of_getElem? hget hnx
        have hklen : rs.length = k + 1 := by
          by_contra hx
          rw [List.getElem?_eq_getElem (by omega)] at hnx
          exact Option.noConfusion hnx
        have htot : total_regions_size rs =
            total_regions_size (rs.take k) + r.region_size := by
          rw [← htake, List.take_of_length_le (by omega)]
        have hptot : p + c = total_regions_size rs := by omega
        have : raw_position_of rs (p + c) =
            r.offset_in_firmware + d + c := by
          rw [raw_position_of, seek_from_start,
            seek_loop_none (by omega : total_regions_size rs ≤ p + c)]
          simp [last_region_end_offset, hlast,
            FirmwareRegion.end_offset_in_firmware]
          omega
        rw [this, hfull]
  · rw [← hc_def, if_neg hfull]
    have hdc : d + c < r.region_size := by omega
    have hadd := locate_add h hdc
    have : raw_position_of rs (p + c) =
        r.offset_in_firmware + d + c := by
      rw [raw_position_of, seek_from_start, locate_seek_loop hadd]
      show r.offset_in_firmware + (d + c) = r.offset_in_firmware + d + c
      omega
    rw [this]

/-- `read_exact` of `len` bytes starting at the raw address of logical
position `p` returns exactly bytes `[p, p+len)` of the logical stream. -/
theorem read_exact_fuel_spec {data : List Nat} {rs : List FirmwareRegion}
    (hc : regions_chain 0 rs) (hw : regions_within data.length rs)
    (hpos : regions_positive rs) :
    ∀ fuel len p, len ≤ fuel → p + len ≤ total_regions_size rs →
      ∃ q, read_exact_fuel data rs fuel len (raw_position_of rs p) =
        .ok (((mapped_bytes data rs).drop p).take len, q) := by
  intro fuel
  induction fuel with
  | zero =>
      intro len p hlen _
      have : len = 0 := by omega
      subst this
      exact ⟨raw_position_of rs p, by simp [read_exact_fuel]⟩
  | succ f ih =>
      intro len p hlen hptot
      match len with
      | 0 => exact ⟨raw_position_of rs p, by simp [read_exact_fuel]⟩
      | n + 1 =>
          have hp : p < total_regions_size rs := by omega
          obtain ⟨c, hc1, hcn, hpc, hread⟩ :=
            @read_step data rs p (n + 1) hc hw hpos hp (by omega)
          have hmlen : (mapped_bytes data rs).length = total_regions_size rs :=
            mapped_bytes_length hw
          have hblen : (((mapped_bytes data rs).drop p).take c).length = c := by
            simp
            omega
          rw [read_exact_fuel, hread]
          dsimp only
          rw [hblen]
          by_cases hz : c = 0
          · omega
          · rw [if_neg hz]
            by_cases hfull : n + 1 ≤ c
            · rw [if_pos hfull]
              have : c = n + 1 := by omega
              subst this
              exact ⟨raw_position_of rs (p + (n + 1)), rfl⟩
            · rw [if_neg hfull]
              obtain ⟨q, hrec⟩ := ih (n + 1 - c) (p + c) (by omega) (by omega)
              rw [hrec]
              dsimp only
              refine ⟨q, ?_⟩
              have hsplit : List.take (n + 1) ((mapped_bytes data rs).drop p) =
                  List.take c ((mapped_bytes data rs).drop p) ++
                    List.take (n + 1 - c) (((mapped_bytes data rs).drop p).drop c) := by
                rw [← List.take_add]
                congr 1
                omega
              rw [hsplit, List.drop_drop]

theorem chain_le_offset {rs : List FirmwareRegion} {lo i : Nat}
    {a : FirmwareRegion} (hc : regions_chain lo rs) (ha : rs[i]? = some a) :
    lo ≤ a.offset_in_firmware := by
  induction rs generalizing lo i with
  | nil => simp at ha
  | cons r0 rest ih =>
      obtain ⟨hlo, hc'⟩ := hc
      match i with
      | 0 =>
          simp at ha
          subst ha
          exact hlo
      | i + 1 =>
          have ha' : rest[i]? = some a := by simpa using ha
          have := ih hc' ha'
          have h2 : r0.offset_in_firmware ≤ r0.end_offset_in_firmware :=
            Nat.le_add_right _ _
          omega

/-- A raw position strictly inside the gap between two adjacent mapped
regions is classified `BetweenRegions`. -/
theorem gap_classify {rs : List FirmwareRegion} {lo p : Nat}
    (hc : regions_chain lo rs) (hpos : regions_positive rs)
    {i : Nat} {a b : FirmwareRegion} (ha : rs[i]? = some a)
    (hb : rs[i + 1]? = some b) (h1 : a.end_offset_in_firmware ≤ p)
    (h2 : p < b.offset_in_firmware) :
    ∀ acc e j, reader_position_info_loop p rs acc e j = .betweenRegions := by
  induction rs generalizing lo i with
  | nil => simp at ha
  | cons r0 rest ih =>
      intro acc e j
      obtain ⟨hlo, hc'⟩ := hc
      match i with
      | 0 =>
          simp at ha
          subst ha
          have hb0 : rest[0]? = some b := by simpa using hb
          have hne : rest ≠ [] := by
            intro hnil; rw [hnil] at hb0; simp at hb0
          obtain ⟨b0, rest', rfl⟩ := List.exists_cons_of_ne_nil hne
          simp at hb0
          subst hb0
          have hbpos : 0 < b0.region_size := hpos b0 (by simp)
          have hapos : 0 < r0.region_size := hpos r0 (by simp)
          rw [reader_position_info_loop, if_pos h1]
          rw [reader_position_info_loop]
          have hn1 : ¬ (b0.end_offset_in_firmware ≤ p) := by
            simp [FirmwareRegion.end_offset_in_firmware]; omega
          have hn2 : ¬ (b0.offset_in_firmware ≤ p) := by omega
          have hn3 : ¬ (acc + r0.region_size = 0) := by omega
          rw [if_neg hn1, if_neg hn2, if_neg hn3]
      | i + 1 =>
          have ha' : rest[i]? = some a := by simpa using ha
          have hb' : rest[i + 1]? = some b := by simpa using hb
          have hlb : r0.end_offset_in_firmware ≤ a.offset_in_firmware :=
            chain_le_offset hc' ha'
          have hskip : r0.end_offset_in_firmware ≤ p := by
            have : a.offset_in_firmware ≤ a.end_offset_in_firmware :=
              Nat.le_add_right _ _
            omega
          have hpos' : regions_positive rest := fun x hx => hpos x (by simp [hx])
          rw [reader_position_info_loop, if_pos hskip]
          exact ih hc' hpos' ha' hb' _ _ _

/-- A raw position strictly before the first region (with the zero
accumulator of the initial call) is classified `BeforeFirstRegion`. -/
theorem before_first_classify {r0 : FirmwareRegion} {rest : List FirmwareRegion}
    {p : Nat} (h : p < r0.offset_in_firmware) (e j : Nat) :
    reader_position_info_loop p (r0 :: rest) 0 e j = .beforeFirstRegion := by
  have hn1 : ¬ (r0.end_offset_in_firmware ≤ p) := by
    simp [FirmwareRegion.end_offset_in_firmware]; omega
  have hn2 : ¬ (r0.offset_in_firmware ≤ p) := by omega
  rw [reader_position_info_loop, if_neg hn1, if_neg hn2, if_pos rfl]

end CursorLemmas

/-! ## Test fixture of `src/cursor.rs` (`test_read` / `test_seek`)

A 100-byte source `0, 1, …, 99` and the mapped regions `[0,10)`, `[15,50)`,
`[80,90)` (supplied unsorted; `new` orders them ascending by offset). -/

def test_data : List Nat := List.range 100

def test_regions : List FirmwareRegion :=
  ContinuousRegionReader.new [⟨15, 35⟩, ⟨80, 10⟩, ⟨0, 10⟩]

section CursorClaims

open ContinuousRegionReader

/-- Claim C2: over regions `[0,10), [15,50), [80,90)` of a 100-byte source,
`seek(Start(55))` then a read returns 0 bytes without error.  However
`seek(Start(60))` followed by `seek(Current(-1))` returns `Ok(94)` — the raw
source offset — not the logical position 59 that the claim (and the
`Seek`-trait convention followed by the in-region branch, which returns
`Ok(from_start)`) requires; the classifier itself puts the resulting raw
position 94 at logical position 59. -/
theorem c2_clean_eof_and_past_end_seek :
    seek test_regions 0 (.start 55) = .ok (90, 90) ∧
    (∀ n, read test_data test_regions 90 n = .ok ([], 90)) ∧
    seek test_regions 0 (.start 60) = .ok (95, 95) ∧
    seek test_regions 95 (.current (-1)) = .ok (94, 94) ∧
    reader_position_info test_regions 94 = .afterLastRegion 59 :=
  ⟨rfl, fun _ => rfl, rfl, rfl, rfl⟩

/-- Claim C4: for a reader over sorted, non-overlapping, in-bounds regions
and any logical position `p` below the total mapped size,
`seek(SeekFrom::Start(p))` returns `p`, and the following 1-byte read
returns exactly byte `p` of the concatenation of the regions' raw byte
ranges in sorted order. -/
theorem c4_seek_read_equivalence (data : List Nat)
    (regions : List FirmwareRegion) (pos0 p : Nat)
    (hc : regions_chain 0 regions) (hw : regions_within data.length regions)
    (hp : p < total_regions_size regions) :
    ∃ b raw q, (mapped_bytes data regions)[p]? = some b ∧
      seek regions pos0 (.start p) = .ok (p, raw) ∧
      read data regions raw 1 = .ok ([b], q) := by
  obtain ⟨r, k, d, h⟩ := locate_isSome hp
  have hdlt := (locate_spec h).1
  have hmlen := @mapped_bytes_length data regions hw
  have hplt : p < (mapped_bytes data regions).length := by omega
  have hmin : min 1 (r.region_size - d) = 1 := by omega
  have hread := read_at_located hc hw h 1
  rw [hmin] at hread
  have hdropp := List.drop_eq_getElem_cons hplt
  refine ⟨(mapped_bytes data regions)[p], r.offset_in_firmware + d,
    if 1 = r.region_size - d then
      (match regions[k + 1]? with
        | some nx => nx.offset_in_firmware
        | none => r.offset_in_firmware + d + 1)
    else r.offset_in_firmware + d + 1, ?_, ?_, ?_⟩
  · exact List.getElem?_eq_getElem hplt
  · show Except.ok (seek_from_start regions p) = _
    rw [seek_from_start, locate_seek_loop h]
  · rw [hread, hdropp]
    exact rfl

/-- Witness for C4 at logical position 12 of the test fixture. -/
theorem c4_witness :
    regions_chain 0 test_regions ∧
    regions_within test_data.length test_regions ∧
    12 < total_regions_size test_regions ∧
    (∃ b raw q, (mapped_bytes test_data test_regions)[12]? = some b ∧
      ContinuousRegionReader.seek test_regions 0 (.start 12) = .ok (12, raw) ∧
      ContinuousRegionReader.read test_data test_regions raw 1 = .ok ([b], q)) :=
  ⟨by decide, by decide, by decide,
    c4_seek_read_equivalence test_data test_regions 0 12
      (by decide) (by decide) (by decide)⟩

/-- Claim C5: the reader sorts the supplied regions ascending by offset at
construction; over the test fixture the logical size is 55 and a sequential
read of 55 bytes from logical 0 is the concatenation of raw byte ranges
`[0,10) ++ [15,50) ++ [80,90)`; in general, for sorted non-overlapping
in-bounds positive regions, a sequential `read_exact` of any valid logical
interval returns the corresponding slice of the concatenated stream,
transparently crossing region boundaries. -/
theorem c5_continuity :
    (∀ regions : List FirmwareRegion,
        List.Sorted region_le (new regions) ∧ (new regions).Perm regions) ∧
    (total_regions_size test_regions = 55 ∧
      read_exact test_data test_regions 55 0 =
        .ok (test_data.take 10 ++ (test_data.drop 15).take 35 ++
          (test_data.drop 80).take 10, 90)) ∧
    (∀ (data : List Nat) (regions : List FirmwareRegion) (p len : Nat),
        regions_chain 0 regions → regions_within data.length regions →
        regions_positive regions → p + len ≤ total_regions_size regions →
        ∃ q, read_exact data regions len (raw_position_of regions p) =
          .ok (((mapped_bytes data regions).drop p).take len, q)) := by
  refine ⟨?_, ⟨by decide, rfl⟩, ?_⟩
  · intro regions
    exact ⟨List.sorted_insertionSort region_le regions,
      List.perm_insertionSort region_le regions⟩
  · intro data regions p len hc hw hpos hlen
    exact read_exact_fuel_spec hc hw hpos len len p (le_refl _) hlen

/-- Witness for the general part of C5 on the test fixture: the full-stream
read from logical 0. -/
theorem c5_witness :
    ∃ q, read_exact test_data test_regions 55 (raw_position_of test_regions 0) =
      .ok (((mapped_bytes test_data test_regions).drop 0).take 55, q) :=
  c5_continuity.2.2 test_data test_regions 0 55
    (by decide) (by decide) (by decide) (by decide)

/-- Claim C6: reading while the raw position is strictly before the first
region, or strictly inside the gap between two adjacent mapped regions,
fails with an input error (and hence never returns unmapped bytes). -/
theorem c6_gap_safety (data : List Nat) (regions : List FirmwareRegion)
    (p n : Nat) (hc : regions_chain 0 regions)
    (hpos : regions_positive regions)
    (hgap :
      (∃ r0 rest, regions = r0 :: rest ∧ p < r0.offset_in_firmware) ∨
      (∃ i a b, regions[i]? = some a ∧ regions[i + 1]? = some b ∧
        a.end_offset_in_firmware ≤ p ∧ p < b.offset_in_firmware)) :
    ∃ e, read data regions p n = .error e := by
  rcases hgap with ⟨r0, rest, rfl, hlt⟩ | ⟨i, a, b, ha, hb, h1, h2⟩
  · refine ⟨"Cannot read before first region!", ?_⟩
    unfold ContinuousRegionReader.read ContinuousRegionReader.reader_position_info
    rw [before_first_classify hlt 0 0]
  · refine ⟨"Cannot read between specified regions!", ?_⟩
    unfold ContinuousRegionReader.read ContinuousRegionReader.reader_position_info
    rw [gap_classify hc hpos ha hb h1 h2 0 0 0]

/-- Witness for C6 at raw position 12, inside the gap `[10,15)` of the test
fixture. -/
theorem c6_witness :
    ∃ e, ContinuousRegionReader.read test_data test_regions 12 4 = .error e :=
  c6_gap_safety test_data test_regions 12 4 (by decide) (by decide)
    (Or.inr ⟨0, ⟨0, 10⟩, ⟨15, 35⟩, by decide, by decide, by decide, by decide⟩)

/-- Claim C10: with an empty region list every raw position is classified
`AfterLastRegion` (at translated position equal to the raw position), every
read returns 0 bytes without error, and `seek(Start(n))` succeeds returning
`n` and placing the underlying source at raw offset `n`. -/
theorem c10_empty_region_list (data : List Nat) (p n m : Nat) :
    reader_position_info [] p = .afterLastRegion p ∧
    read data [] p n = .ok ([], p) ∧
    seek [] p (.start m) = .ok (m, m) := by
  refine ⟨rfl, rfl, ?_⟩
  show Except.ok (seek_from_start [] m) = _
  rw [seek_from_start]
  simp [seek_from_start_loop, last_region_end_offset, total_regions_size]

end CursorClaims

/-! ## Binary decoding primitives

Model of the `binread` primitives used by the region schemas of
`src/pci_legacy.rs`, `src/pci_efi.rs`, `src/nvidia.rs` and
`src/nvidia/nbsi.rs`: little-endian integer reads over the byte source
(failing cleanly at end of input, as `read_exact` does), absolute seeks,
`align_before`, `count`, and `try`. -/

/-- `align` from `src/lib.rs`: round `pos` up to the next multiple of
`alignment` (`offset + (alignment - 1) & !(alignment - 1)` for the
power-of-two alignments 512 and 16 used by the schemas). -/
def align_up (pos alignment : Nat) : Nat :=
  ((pos + alignment - 1) / alignment) * alignment

/-- Read `n` raw bytes (`read_exact` semantics: error when fewer remain). -/
def rdBytesE (source : List Nat) (pos n : Nat) : Except String (List Nat × Nat) :=
  if pos + n ≤ source.length then .ok ((source.drop pos).take n, pos + n)
  else .error "unexpected end of input"

/-- Little-endian byte-list value. -/
def leNat (bs : List Nat) : Nat := bs.foldr (fun b acc => b + 256 * acc) 0

def rdU8E (source : List Nat) (pos : Nat) : Except String (Nat × Nat) := do
  let (bs, pos) ← rdBytesE source pos 1
  pure (leNat bs, pos)

def rdU16E (source : List Nat) (pos : Nat) : Except String (Nat × Nat) := do
  let (bs, pos) ← rdBytesE source pos 2
  pure (leNat bs, pos)

def rdU32E (source : List Nat) (pos : Nat) : Except String (Nat × Nat) := do
  let (bs, pos) ← rdBytesE source pos 4
  pure (leNat bs, pos)

def rdU64E (source : List Nat) (pos : Nat) : Except String (Nat × Nat) := do
  let (bs, pos) ← rdBytesE source pos 8
  pure (leNat bs, pos)

/-- `#[br(try)]`: attempt a nested parse, `None` (with position restored) on
failure.  In every use the next directive is an absolute seek, so the
restored position is never observed. -/
def try_parse {α : Type} (p : List Nat → Nat → Except String (α × Nat))
    (source : List Nat) (pos : Nat) : Option α × Nat :=
  match p source pos with
  | .ok (v, q) => (some v, q)
  | .error _ => (none, pos)

/-- `#[br(count(n))]` over an element parser. -/
def parseCount {α : Type} (p : List Nat → Nat → Except String (α × Nat))
    (source : List Nat) : Nat → Nat → Except String (List α × Nat)
  | 0, pos => .ok ([], pos)
  | n + 1, pos => do
      let (v, pos) ← p source pos
      let (vs, pos) ← parseCount p source n pos
      pure (v :: vs, pos)

/-! ## Region schemas and their decoders

Signatures and enum discriminant sets from the source. -/

def PCI_EXPANSION_ROM_HEADER_IDENTIFIER : List Nat := [0x55, 0xAA]
def PCI_EXPANSION_ROM_DATA_IDENTIFIER : List Nat := [0x50, 0x43, 0x49, 0x52]
def NV_ROM_SIGNATURE : List Nat := [0x56, 0x4E]
def NVGI_SIGNATURE : List Nat := [0x4E, 0x56, 0x47, 0x49]
def RFRD_SIGNATURE : List Nat := [0x52, 0x46, 0x52, 0x44]
def NV_PCI_DATA_STRUCTURE_SIGNATURE : List Nat := [0x4E, 0x50, 0x44, 0x53]
def NV_PCI_DATA_EXTENDED_STRUCTURE_SIGNATURE : List Nat := [0x4E, 0x50, 0x44, 0x45]
def NBSI_SIGNATURE : List Nat := [0x49, 0x53, 0x42, 0x4E]
def EFI_SIGNATURE : List Nat := [0xF1, 0x0E, 0x00, 0x00]

/-- Discriminants of `PciExpansionRomCodeType`. -/
def pciExpansionRomCodeTypeValues : List Nat :=
  [0x0, 0x1, 0x2, 0x3, 0xE0, 0x85, 0x70]

/-- Discriminants of `PciExpansionRomIndicator`. -/
def pciExpansionRomIndicatorValues : List Nat := [0, 128]

/-- Discriminants of `EfiPciExpansionRomSubsystem`. -/
def efiSubsystemValues : List Nat := [0x0B, 0x0C]

/-- Discriminants of `EfiPciExpansionRomMachineType`. -/
def efiMachineTypeValues : List Nat :=
  [0x014C, 0x0200, 0x0EBC, 0x8664, 0x01C2, 0xAA64]

/-- Discriminants of `EfiPciExpansionRomCompression`. -/
def efiCompressionValues : List Nat := [0, 1]

structure PciExpansionRomDataHeaderM where
  signature : List Nat
  vendor_id : Nat
  device_id : Nat
  device_list_ptr : Nat
  pci_data_structure_length : Nat
  pci_data_structure_revision : Nat
  class_code : List Nat
  image_length : Nat
  revision_level : Nat
  code_type : Nat
  indicator : Nat
  max_runtime_image_length : Nat
  configuration_utility_code_pointer : Nat
  dmtf_clp_entry_point_pointer : Nat
deriving DecidableEq, Repr

/-- `PciExpansionRomDataHeader` (28 bytes, `src/pci_legacy.rs`); the enum
fields `code_type` and `indicator` error on an unknown discriminant, the
signature is checked by the enclosing schemas. -/
def parsePciExpansionRomDataHeader (source : List Nat) (pos : Nat) :
    Except String (PciExpansionRomDataHeaderM × Nat) := do
  let (signature, pos) ← rdBytesE source pos 4
  let (vendor_id, pos) ← rdU16E source pos
  let (device_id, pos) ← rdU16E source pos
  let (device_list_ptr, pos) ← rdU16E source pos
  let (pci_data_structure_length, pos) ← rdU16E source pos
  let (pci_data_structure_revision, pos) ← rdU8E source pos
  let (class_code, pos) ← rdBytesE source pos 3
  let (image_length, pos) ← rdU16E source pos
  let (revision_level, pos) ← rdU16E source pos
  let (code_type, pos) ← rdU8E source pos
  if code_type ∉ pciExpansionRomCodeTypeValues then
    throw "invalid PciExpansionRomCodeType"
  let (indicator, pos) ← rdU8E source pos
  if indicator ∉ pciExpansionRomIndicatorValues then
    throw "invalid PciExpansionRomIndicator"
  let (max_runtime_image_length, pos) ← rdU16E source pos
  let (configuration_utility_code_pointer, pos) ← rdU16E source pos
  let (dmtf_clp_entry_point_pointer, pos) ← rdU16E source pos
  pure (⟨signature, vendor_id, device_id, device_list_ptr,
    pci_data_structure_length, pci_data_structure_revision, class_code,
    image_length, revision_level, code_type, indicator,
    max_runtime_image_length, configuration_utility_code_pointer,
    dmtf_clp_entry_point_pointer⟩, pos)

structure NvidiaPciDataExtendedM where
  signature : List Nat
  revision : Nat
  structure_length : Nat
  image_length : Nat
  indicator : Nat
  flags : Nat
  gop_version : Option (List Nat)
  subsystem_id : Option (List Nat)
deriving DecidableEq, Repr

/-- `NvidiaPciDataExtended` (`src/nvidia.rs`): the `NPDE` record, with the two
version fields present only when `structure_length` says so. -/
def parseNvidiaPciDataExtended (source : List Nat) (pos : Nat) :
    Except String (NvidiaPciDataExtendedM × Nat) := do
  let (signature, pos) ← rdBytesE source pos 4
  if signature ≠ NV_PCI_DATA_EXTENDED_STRUCTURE_SIGNATURE then
    throw "assert failed: NPDE signature"
  let (revision, pos) ← rdU16E source pos
  let (structure_length, pos) ← rdU16E source pos
  let (image_length, pos) ← rdU16E source pos
  let (indicator, pos) ← rdU8E source pos
  if indicator ∉ pciExpansionRomIndicatorValues then
    throw "invalid PciExpansionRomIndicator"
  let (flags, pos) ← rdU8E source pos
  let (gop_version, pos) ←
    if structure_length > 12 then do
      let (v, pos) ← rdBytesE source pos 4
      pure (some v, pos)
    else pure (none, pos)
  let (subsystem_id, pos) ←
    if structure_length > 14 then do
      let (v, pos) ← rdBytesE source pos 4
      pure (some v, pos)
    else pure (none, pos)
  pure (⟨signature, revision, structure_length, image_length, indicator,
    flags, gop_version, subsystem_id⟩, pos)

structure PciExpansionRomHeaderM where
  signature : List Nat
  initialization_size : Nat
  init_function_ptr : List Nat
  reserved : List Nat
  pcir_offset : Nat
deriving DecidableEq, Repr

structure PciExpansionRomM where
  offset_in_firmware : Nat
  header : PciExpansionRomHeaderM
  data_header : PciExpansionRomDataHeaderM
  data_header_extended : Option NvidiaPciDataExtendedM
  data : List Nat
deriving DecidableEq, Repr

/-- `PciExpansionRom` (`src/pci_legacy.rs`): legacy option-ROM sub-image. -/
def parsePciExpansionRom (source : List Nat) (start : Nat) :
    Except String (PciExpansionRomM × Nat) := do
  let pos := align_up start 512
  let offset_in_firmware := pos
  let (hsig, pos) ← rdBytesE source pos 2
  if hsig ≠ PCI_EXPANSION_ROM_HEADER_IDENTIFIER then
    throw "assert failed: PCI expansion ROM header identifier"
  let (initialization_size, pos) ← rdU8E source pos
  let (init_function_ptr, pos) ← rdBytesE source pos 3
  let (reserved, pos) ← rdBytesE source pos 18
  let (pcir_offset, pos) ← rdU16E source pos
  let _ := pos
  let pos := offset_in_firmware + pcir_offset
  let (data_header, pos) ← parsePciExpansionRomDataHeader source pos
  if data_header.signature ≠ PCI_EXPANSION_ROM_DATA_IDENTIFIER then
    throw "assert failed: PCIR identifier"
  let pos := align_up pos 16
  let (data_header_extended, _) := try_parse parseNvidiaPciDataExtended source pos
  let pos := offset_in_firmware
  let (dataBytes, pos) ← rdBytesE source pos data_header.image_length
  pure (⟨offset_in_firmware,
    ⟨hsig, initialization_size, init_function_ptr, reserved, pcir_offset⟩,
    data_header, data_header_extended, dataBytes⟩, pos)

structure EfiPciExpansionRomHeaderM where
  signature : List Nat
  initialization_size : Nat
  efi_signature : List Nat
  efi_subsystem : Nat
  efi_machine_type : Nat
  compression_type : Nat
  reserved : List Nat
  efi_image_header_offset : Nat
  pcir_offset : Nat
deriving DecidableEq, Repr

structure EfiPciExpansionRomM where
  offset_in_firmware : Nat
  header : EfiPciExpansionRomHeaderM
  data_header : PciExpansionRomDataHeaderM
  data_header_extended : Option NvidiaPciDataExtendedM
  data : List Nat
deriving DecidableEq, Repr

/-- `EfiPciExpansionRom` (`src/pci_efi.rs`). -/
def parseEfiPciExpansionRom (source : List Nat) (start : Nat) :
    Except String (EfiPciExpansionRomM × Nat) := do
  let pos := align_up start 512
  let offset_in_firmware := pos
  let (hsig, pos) ← rdBytesE source pos 2
  if hsig ≠ PCI_EXPANSION_ROM_HEADER_IDENTIFIER then
    throw "assert failed: PCI expansion ROM header identifier"
  let (initialization_size, pos) ← rdU16E source pos
  let (efi_signature, pos) ← rdBytesE source pos 4
  if efi_signature ≠ EFI_SIGNATURE then
    throw "assert failed: EFI signature"
  let (efi_subsystem, pos) ← rdU16E source pos
  if efi_subsystem ∉ efiSubsystemValues then
    throw "invalid EfiPciExpansionRomSubsystem"
  let (efi_machine_type, pos) ← rdU16E source pos
  if efi_machine_type ∉ efiMachineTypeValues then
    throw "invalid EfiPciExpansionRomMachineType"
  let (compression_type, pos) ← rdU16E source pos
  if compression_type ∉ efiCompressionValues then
    throw "invalid EfiPciExpansionRomCompression"
  let (reserved, pos) ← rdBytesE source pos 8
  let (efi_image_header_offset, pos) ← rdU16E source pos
  let (pcir_offset, pos) ← rdU16E source pos
  let _ := pos
  let pos := offset_in_firmware + pcir_offset
  let (data_header, pos) ← parsePciExpansionRomDataHeader source pos
  if data_header.signature ≠ PCI_EXPANSION_ROM_DATA_IDENTIFIER then
    throw "assert failed: PCIR identifier"
  let pos := align_up pos 16
  let (data_header_extended, _) := try_parse parseNvidiaPciDataExtended source pos
  let pos := offset_in_firmware
  let (dataBytes, pos) ← rdBytesE source pos data_header.image_length
  pure (⟨offset_in_firmware,
    ⟨hsig, initialization_size, efi_signature, efi_subsystem,
      efi_machine_type, compression_type, reserved, efi_image_header_offset,
      pcir_offset⟩,
    data_header, data_header_extended, dataBytes⟩, pos)

structure NvidiaPciExpansionRomHeaderM where
  signature : List Nat
  reserved : List Nat
  pcir_offset : Nat
deriving DecidableEq, Repr

structure NvidiaPciExpansionRomM where
  offset_in_firmware : Nat
  header : NvidiaPciExpansionRomHeaderM
  data_header : PciExpansionRomDataHeaderM
  data_header_extended : Option NvidiaPciDataExtendedM
  data : List Nat
deriving DecidableEq, Repr

/-- `NvidiaPciExpansionRom` (`src/nvidia.rs`): vendor-continuation
sub-image. -/
def parseNvidiaPciExpansionRom (source : List Nat) (start : Nat) :
    Except String (NvidiaPciExpansionRomM × Nat) := do
  let pos := align_up start 512
  let offset_in_firmware := pos
  let (hsig, pos) ← rdBytesE source pos 2
  if hsig ≠ NV_ROM_SIGNATURE then
    throw "assert failed: NV ROM signature"
  let (reserved, pos) ← rdBytesE source pos 22
  let (pcir_offset, pos) ← rdU16E source pos
  let _ := pos
  let pos := offset_in_firmware + pcir_offset
  let (data_header, pos) ← parsePciExpansionRomDataHeader source pos
  if data_header.signature ≠ NV_PCI_DATA_STRUCTURE_SIGNATURE then
    throw "assert failed: NPDS signature"
  let pos := align_up pos 16
  let (data_header_extended, _) := try_parse parseNvidiaPciDataExtended source pos
  let pos := offset_in_firmware
  let (dataBytes, pos) ← rdBytesE source pos data_header.image_length
  pure (⟨offset_in_firmware, ⟨hsig, reserved, pcir_offset⟩,
    data_header, data_header_extended, dataBytes⟩, pos)

structure NbsiGenericObjectHeaderM where
  hash_signature : Nat
  global_type : Nat
  size : Nat
  min_version : Nat
  max_version : Nat
deriving DecidableEq, Repr

structure NbsiGenericObjectM where
  offset_in_region : Nat
  header : NbsiGenericObjectHeaderM
  data_size : Nat
  data_offset_in_region : Nat
deriving DecidableEq, Repr

/-- `NbsiGenericObject` (`src/nvidia/nbsi.rs`).  `data_size` is
`header.size as u64 - 16` with `u64` wrap-around, and `pad_after(data_size as
i64)` seeks by that amount interpreted as a signed 64-bit delta (failing on a
negative resulting position), mirroring release-mode Rust. -/
def parseNbsiGenericObject (source : List Nat) (pos : Nat) :
    Except String (NbsiGenericObjectM × Nat) := do
  let offset_in_region := pos
  let (hash_signature, pos) ← rdU64E source pos
  let (global_type, pos) ← rdU16E source pos
  let (size, pos) ← rdU32E source pos
  let (min_version, pos) ← rdU8E source pos
  let (max_version, pos) ← rdU8E source pos
  let data_size := (size + 18446744073709551616 - 16) % 18446744073709551616
  let data_offset_in_region := pos
  let pos ←
    if data_size < 9223372036854775808 then pure (pos + data_size)
    else if 18446744073709551616 - data_size ≤ pos then
      pure (pos - (18446744073709551616 - data_size))
    else throw "invalid seek to a negative position"
  pure (⟨offset_in_region,
    ⟨hash_signature, global_type, size, min_version, max_version⟩,
    data_size, data_offset_in_region⟩, pos)

structure NbsiDirectoryM where
  offset_in_region : Nat
  signature : List Nat
  size : Nat
  globals_count : Nat
  driver : Nat
  objects_global_types : List Nat
  objects_offset_in_region : Nat
  objects : List NbsiGenericObjectM
deriving DecidableEq, Repr

/-- `NbsiDirectory` (`src/nvidia/nbsi.rs`). -/
def parseNbsiDirectory (source : List Nat) (pos : Nat) :
    Except String (NbsiDirectoryM × Nat) := do
  let offset_in_region := pos
  let (signature, pos) ← rdBytesE source pos 4
  if signature ≠ NBSI_SIGNATURE then
    throw "assert failed: NBSI signature"
  let (size, pos) ← rdU32E source pos
  let (globals_count, pos) ← rdU8E source pos
  let (driver, pos) ← rdU8E source pos
  let (objects_global_types, pos) ← parseCount rdU16E source globals_count pos
  let objects_offset_in_region := pos
  let (objects, pos) ← parseCount parseNbsiGenericObject source globals_count pos
  pure (⟨offset_in_region, signature, size, globals_count, driver,
    objects_global_types, objects_offset_in_region, objects⟩, pos)

structure NbsiPciExpansionRomHeaderM where
  signature : List Nat
  reserved : List Nat
  nbsi_data_offset : Nat
  pcir_offset : Nat
  nbsi_block_size : Nat
deriving DecidableEq, Repr

structure NbsiPciExpansionRomM where
  offset_in_firmware : Nat
  header : NbsiPciExpansionRomHeaderM
  data_header : PciExpansionRomDataHeaderM
  data_header_extended : Option NvidiaPciDataExtendedM
  nbsi_directory : NbsiDirectoryM
deriving DecidableEq, Repr

/-- `NbsiPciExpansionRom` (`src/nvidia/nbsi.rs`): auxiliary directory
sub-image. -/
def parseNbsiPciExpansionRom (source : List Nat) (start : Nat) :
    Except String (NbsiPciExpansionRomM × Nat) := do
  let pos := align_up start 512
  let offset_in_firmware := pos
  let (hsig, pos) ← rdBytesE source pos 2
  if hsig ≠ NV_ROM_SIGNATURE then
    throw "assert failed: NV ROM signature"
  let (reserved, pos) ← rdBytesE source pos 20
  let (nbsi_data_offset, pos) ← rdU16E source pos
  let (pcir_offset, pos) ← rdU16E source pos
  let (nbsi_block_size, pos) ← rdU16E source pos
  let _ := pos
  let pos := offset_in_firmware + pcir_offset
  let (data_header, pos) ← parsePciExpansionRomDataHeader source pos
  if data_header.signature ≠ NV_PCI_DATA_STRUCTURE_SIGNATURE then
    throw "assert failed: NPDS signature"
  let pos := align_up pos 16
  let (data_header_extended, _) := try_parse parseNvidiaPciDataExtended source pos
  let pos := offset_in_firmware + nbsi_data_offset
  let (nbsi_directory, pos) ← parseNbsiDirectory source pos
  pure (⟨offset_in_firmware,
    ⟨hsig, reserved, nbsi_data_offset, pcir_offset, nbsi_block_size⟩,
    data_header, data_header_extended, nbsi_directory⟩, pos)

structure NvgiHeaderM where
  signature : List Nat
  unknown1 : Nat
  unknown2 : Nat
  size : Nat
deriving DecidableEq, Repr

structure NvgiRegionM where
  offset_in_firmware : Nat
  header : NvgiHeaderM
  data_size : Nat
  data_offset_in_firmware : Nat
deriving DecidableEq, Repr

/-- `NvgiRegion` (`src/nvidia.rs`): leading marker region; `data_size` is the
header's `size` field and `pad_after` skips the payload. -/
def parseNvgiRegion (source : List Nat) (start : Nat) :
    Except String (NvgiRegionM × Nat) := do
  let pos := align_up start 512
  let offset_in_firmware := pos
  let (signature, pos) ← rdBytesE source pos 4
  if signature ≠ NVGI_SIGNATURE then
    throw "assert failed: NVGI signature"
  let (unknown1, pos) ← rdU16E source pos
  let (unknown2, pos) ← rdU16E source pos
  let (size, pos) ← rdU32E source pos
  let data_size := size
  let data_offset_in_firmware := pos
  let pos := pos + data_size
  pure (⟨offset_in_firmware, ⟨signature, unknown1, unknown2, size⟩,
    data_size, data_offset_in_firmware⟩, pos)

structure RfrdHeaderM where
  signature : List Nat
  unknown1 : Nat
  unknown2 : Nat
  pci_rom_offset : Nat
deriving DecidableEq, Repr

structure RfrdRegionM where
  offset_in_firmware : Nat
  header : RfrdHeaderM
deriving DecidableEq, Repr

/-- `RfrdRegion` (`src/nvidia.rs`): trailer marker region. -/
def parseRfrdRegion (source : List Nat) (start : Nat) :
    Except String (RfrdRegionM × Nat) := do
  let pos := align_up start 512
  let offset_in_firmware := pos
  let (signature, pos) ← rdBytesE source pos 4
  if signature ≠ RFRD_SIGNATURE then
    throw "assert failed: RFRD signature"
  let (unknown1, pos) ← rdU16E source pos
  let (unknown2, pos) ← rdU16E source pos
  let (pci_rom_offset, pos) ← rdU32E source pos
  pure (⟨offset_in_firmware, ⟨signature, unknown1, unknown2, pci_rom_offset⟩⟩,
    pos)

/-! ## The `Region` sum and its `FirmwareRegion` view (`src/lib.rs`) -/

inductive RegionM where
  | legacyPciExpansionRom (r : PciExpansionRomM)
  | efiPciExpansionRom (r : EfiPciExpansionRomM)
  | nvidiaPciExpansionRom (r : NvidiaPciExpansionRomM)
  | nbsiPciExpansionRom (r : NbsiPciExpansionRomM)
  | nvgiRegion (r : NvgiRegionM)
  | rfrdRegion (r : RfrdRegionM)
deriving DecidableEq, Repr

/-- The `FirmwareRegion::region_size` implementations of the six variants. -/
def RegionM.region_size : RegionM → Nat
  | .legacyPciExpansionRom r => r.data_header.image_length * 512
  | .efiPciExpansionRom r => r.data_header.image_length * 512
  | .nvidiaPciExpansionRom r => r.data_header.image_length * 512
  | .nbsiPciExpansionRom r => r.data_header.image_length * 512
  | .nvgiRegion r => r.data_size
  | .rfrdRegion _ => 16

/-- The `FirmwareRegion::offset_in_firmware` implementations. -/
def RegionM.offset_in_firmware : RegionM → Nat
  | .legacyPciExpansionRom r => r.offset_in_firmware
  | .efiPciExpansionRom r => r.offset_in_firmware
  | .nvidiaPciExpansionRom r => r.offset_in_firmware
  | .nbsiPciExpansionRom r => r.offset_in_firmware
  | .nvgiRegion r => r.offset_in_firmware
  | .rfrdRegion r => r.offset_in_firmware

/-! ## The scanner (`read_region` and `RegionIterator::try_next`) -/

/-- `read_region` from `src/lib.rs`: seek to the probe offset, attempt the
speculative decode, and on failure seek back to the probe offset.  The
result pairs the decode outcome with the final raw position of the source:
on failure it is exactly the probe offset. -/
def read_region {α : Type} (p : List Nat → Nat → Except String (α × Nat))
    (source : List Nat) (offset_in_firmware : Nat) :
    Except String α × Nat :=
  match p source offset_in_firmware with
  | .ok (v, q) => (.ok v, q)
  | .error e => (.error e, offset_in_firmware)

/-- The 2-byte-signature stage of a probe (`match signature_2 { … }` in
`try_next`): on the PCI identifier try EFI then legacy, on the NV signature
try NBSI then the vendor continuation ROM; a failed speculative decode falls
through to the next candidate, `none` falls through to the 4-byte stage. -/
def scan_two_byte (source : List Nat) (signature_2 : List Nat)
    (offset_in_firmware : Nat) : Option (RegionM × Nat) :=
  if signature_2 = PCI_EXPANSION_ROM_HEADER_IDENTIFIER then
    match read_region parseEfiPciExpansionRom source offset_in_firmware with
    | (.ok r, q) => some (.efiPciExpansionRom r, q)
    | (.error _, _) =>
      match read_region parsePciExpansionRom source offset_in_firmware with
      | (.ok r, q) => some (.legacyPciExpansionRom r, q)
      | (.error _, _) => none
  else if signature_2 = NV_ROM_SIGNATURE then
    match read_region parseNbsiPciExpansionRom source offset_in_firmware with
    | (.ok r, q) => some (.nbsiPciExpansionRom r, q)
    | (.error _, _) =>
      match read_region parseNvidiaPciExpansionRom source offset_in_firmware with
      | (.ok r, q) => some (.nvidiaPciExpansionRom r, q)
      | (.error _, _) => none
  else none

/-- The 4-byte-signature stage of a probe (`match signature_4 { … }`):
the NVGI and RFRD marker schemas. -/
def scan_four_byte (source : List Nat) (signature_4 : List Nat)
    (offset_in_firmware : Nat) : Option (RegionM × Nat) :=
  if signature_4 = NVGI_SIGNATURE then
    match read_region parseNvgiRegion source offset_in_firmware with
    | (.ok r, q) => some (.nvgiRegion r, q)
    | (.error _, _) => none
  else if signature_4 = RFRD_SIGNATURE then
    match read_region parseRfrdRegion source offset_in_firmware with
    | (.ok r, q) => some (.rfrdRegion r, q)
    | (.error _, _) => none
  else none

/-- The probe loop of `RegionIterator::try_next`: at each 512-aligned probe,
read a 512-byte window (fewer bytes left ⇒ clean end of scan), try the
2-byte-signature schemas in priority order, then the 4-byte-signature marker
schemas, return the first successful decode, else advance one stride.  The
`Except` mirrors the Rust `Result`: every structural decode failure is
swallowed, so every exit of the loop is `Ok`.

The loop is driven by an iteration bound `gas`; each round requires 512
further bytes of the source, so the `source.length + 1` supplied by
`try_next` always exceeds the number of rounds, and when `gas` runs out the
returned value `Ok(None)` coincides with the loop's own exhausted-source
exit.  A `Some` result therefore never depends on the bound. -/
def try_next_loop (source : List Nat) : Nat → Nat →
    Except String (Option RegionM × Nat)
  | 0, pos => .ok (none, pos)
  | gas + 1, pos =>
  if pos + 512 ≤ source.length then
    let offset_in_firmware := pos
    let buf := (source.drop pos).take 512
    match scan_two_byte source (buf.take 2) offset_in_firmware with
    | some (r, q) => .ok (some r, q)
    | none =>
      match scan_four_byte source (buf.take 4) offset_in_firmware with
      | some (r, q) => .ok (some r, q)
      | none => try_next_loop source gas (offset_in_firmware + 512)
  else .ok (none, pos)

/-- `RegionIterator::try_next`: align to the 512-byte stride and run the
probe loop. -/
def try_next (source : List Nat) (pos : Nat) :
    Except String (Option RegionM × Nat) :=
  try_next_loop source (source.length + 1) (align_up pos 512)

/-- `true` exactly on the trailer marker variant. -/
def RegionM.isRfrdRegion : RegionM → Bool
  | .rfrdRegion _ => true
  | _ => false

/-- The internal length field each variant derives its `region_size` from:
`image_length` for the four option-ROM schemas, the NVGI header's `size`
field for the leading marker, and the fixed 16 for the trailer marker. -/
def RegionM.region_size_field : RegionM → Nat
  | .legacyPciExpansionRom r => r.data_header.image_length
  | .efiPciExpansionRom r => r.data_header.image_length
  | .nvidiaPciExpansionRom r => r.data_header.image_length
  | .nbsiPciExpansionRom r => r.data_header.image_length
  | .nvgiRegion r => r.header.size
  | .rfrdRegion _ => 16

/-! ## Concrete scan fixtures -/

/-- A 512-byte blob starting with `NVGI` whose header `size` field is 0. -/
def nvgi_zero_data : List Nat := NVGI_SIGNATURE ++ List.replicate 508 0

/-- A 1024-byte blob: at probe 0 the bytes `55 AA …` match the 2-byte PCI
signature, but both the EFI and the legacy speculative decodes fail (no EFI
signature, no `PCIR` identifier at the zero `pcir_offset`); at probe 512
there is a valid `RFRD` trailer marker. -/
def corrupt_then_rfrd_data : List Nat :=
  PCI_EXPANSION_ROM_HEADER_IDENTIFIER ++ List.replicate 510 0 ++
    RFRD_SIGNATURE ++ List.replicate 508 0

/-- A successful `parseNvgiRegion` copies the header's `size` field into
`data_size` (the value `region_size` reports). -/
theorem parseNvgiRegion_data_size {source : List Nat} {st q : Nat}
    {v : NvgiRegionM} (h : parseNvgiRegion source st = .ok (v, q)) :
    v.data_size = v.header.size := by
  unfold parseNvgiRegion at h
  simp only [bind, Except.bind, pure, Except.pure] at h
  cases hx1 : rdBytesE source (align_up st 512) 4 with
  | error e => simp [hx1] at h
  | ok w1 =>
      obtain ⟨sig, pos1⟩ := w1
      simp only [hx1] at h
      by_cases hsig : sig = NVGI_SIGNATURE
      · rw [if_neg (fun hne => hne hsig)] at h
        cases hx2 : rdU16E source pos1 with
        | error e => simp [hx2] at h
        | ok w2 =>
            obtain ⟨u1, pos2⟩ := w2
            simp only [hx2] at h
            cases hx3 : rdU16E source pos2 with
            | error e => simp [hx3] at h
            | ok w3 =>
                obtain ⟨u2, pos3⟩ := w3
                simp only [hx3] at h
                cases hx4 : rdU32E source pos3 with
                | error e => simp [hx4] at h
                | ok w4 =>
                    obtain ⟨sz, pos4⟩ := w4
                    simp only [hx4, Except.ok.injEq, Prod.mk.injEq] at h
                    obtain ⟨hv, _⟩ := h
                    subst hv
                    rfl
      · rw [if_pos hsig] at h
        simp at h

/-- A `read_region` result that carries a value came from a successful run
of the underlying decoder. -/
theorem read_region_ok_inv {α : Type}
    {p : List Nat → Nat → Except String (α × Nat)}
    {source : List Nat} {off : Nat} {v : α} {q : Nat}
    (h : read_region p source off = (.ok v, q)) :
    p source off = .ok (v, q) := by
  unfold read_region at h
  cases hp : p source off with
  | ok w =>
      obtain ⟨v', q'⟩ := w
      rw [hp] at h
      simp only [Prod.mk.injEq, Except.ok.injEq] at h
      obtain ⟨h1, h2⟩ := h
      rw [h1, h2]
  | error e =>
      rw [hp] at h
      simp at h

/-- The probe loop never surfaces an error: every speculative decode failure
is swallowed and every exit is `Ok`. -/
theorem try_next_loop_ok (source : List Nat) :
    ∀ gas pos, ∃ res, try_next_loop source gas pos = .ok res := by
  intro gas
  induction gas with
  | zero => intro pos; exact ⟨(none, pos), rfl⟩
  | succ g ih =>
      intro pos
      by_cases hcond : pos + 512 ≤ source.length
      · cases h2 : scan_two_byte source
            (((source.drop pos).take 512).take 2) pos with
        | some rq =>
            obtain ⟨r, q⟩ := rq
            refine ⟨(some r, q), ?_⟩
            rw [try_next_loop, if_pos hcond]
            dsimp only
            rw [h2]
        | none =>
            cases h4 : scan_four_byte source
                (((source.drop pos).take 512).take 4) pos with
            | some rq =>
                obtain ⟨r, q⟩ := rq
                refine ⟨(some r, q), ?_⟩
                rw [try_next_loop, if_pos hcond]
                dsimp only
                rw [h2, h4]
            | none =>
                obtain ⟨res, hres⟩ := ih (pos + 512)
                refine ⟨res, ?_⟩
                rw [try_next_loop, if_pos hcond]
                dsimp only
                rw [h2, h4]
                exact hres
      · exact ⟨(none, pos), by rw [try_next_loop, if_neg hcond]⟩

/-- The size shape every scanner-produced `Region` satisfies: the trailer
marker has the fixed size 16; an NVGI region's size is its header's `size`
field; and for every non-trailer variant the size is positive exactly when
the variant's internal length field is nonzero. -/
def region_size_invariant (r : RegionM) : Prop :=
  (r.isRfrdRegion = true → r.region_size = 16) ∧
  (∀ v, r = RegionM.nvgiRegion v → r.region_size = v.header.size) ∧
  (r.isRfrdRegion = false → (0 < r.region_size ↔ 0 < r.region_size_field))

theorem rom_variant_invariant_legacy (v : PciExpansionRomM) :
    region_size_invariant (.legacyPciExpansionRom v) := by
  refine ⟨by simp [RegionM.isRfrdRegion], by simp, ?_⟩
  intro _
  simp [RegionM.region_size, RegionM.region_size_field]

theorem rom_variant_invariant_efi (v : EfiPciExpansionRomM) :
    region_size_invariant (.efiPciExpansionRom v) := by
  refine ⟨by simp [RegionM.isRfrdRegion], by simp, ?_⟩
  intro _
  simp [RegionM.region_size, RegionM.region_size_field]

theorem rom_variant_invariant_nvidia (v : NvidiaPciExpansionRomM) :
    region_size_invariant (.nvidiaPciExpansionRom v) := by
  refine ⟨by simp [RegionM.isRfrdRegion], by simp, ?_⟩
  intro _
  simp [RegionM.region_size, RegionM.region_size_field]

theorem rom_variant_invariant_nbsi (v : NbsiPciExpansionRomM) :
    region_size_invariant (.nbsiPciExpansionRom v) := by
  refine ⟨by simp [RegionM.isRfrdRegion], by simp, ?_⟩
  intro _
  simp [RegionM.region_size, RegionM.region_size_field]

theorem scan_two_byte_invariant {source sig : List Nat} {off : Nat}
    {r : RegionM} {q : Nat} (h : scan_two_byte source sig off = some (r, q)) :
    region_size_invariant r := by
  unfold scan_two_byte at h
  by_cases hs1 : sig = PCI_EXPANSION_ROM_HEADER_IDENTIFIER
  · rw [if_pos hs1] at h
    cases he : read_region parseEfiPciExpansionRom source off with
    | mk e1 p1 =>
        rw [he] at h
        cases e1 with
        | ok v =>
            simp only [Option.some.injEq, Prod.mk.injEq] at h
            obtain ⟨hr, _⟩ := h
            rw [← hr]
            exact rom_variant_invariant_efi v
        | error e =>
            cases hl : read_region parsePciExpansionRom source off with
            | mk e2 p2 =>
                rw [hl] at h
                cases e2 with
                | ok v =>
                    simp only [Option.some.injEq, Prod.mk.injEq] at h
                    obtain ⟨hr, _⟩ := h
                    rw [← hr]
                    exact rom_variant_invariant_legacy v
                | error e => simp at h
  · rw [if_neg hs1] at h
    by_cases hs2 : sig = NV_ROM_SIGNATURE
    · rw [if_pos hs2] at h
      cases hn : read_region parseNbsiPciExpansionRom source off with
      | mk e1 p1 =>
          rw [hn] at h
          cases e1 with
          | ok v =>
              simp only [Option.some.injEq, Prod.mk.injEq] at h
              obtain ⟨hr, _⟩ := h
              rw [← hr]
              exact rom_variant_invariant_nbsi v
          | error e =>
              cases hv : read_region parseNvidiaPciExpansionRom source off with
              | mk e2 p2 =>
                  rw [hv] at h
                  cases e2 with
                  | ok v =>
                      simp only [Option.some.injEq, Prod.mk.injEq] at h
                      obtain ⟨hr, _⟩ := h
                      rw [← hr]
                      exact rom_variant_invariant_nvidia v
                  | error e => simp at h
    · rw [if_neg hs2] at h
      simp at h

theorem scan_four_byte_invariant {source sig : List Nat} {off : Nat}
    {r : RegionM} {q : Nat} (h : scan_four_byte source sig off = some (r, q)) :
    region_size_invariant r := by
  unfold scan_four_byte at h
  by_cases hs1 : sig = NVGI_SIGNATURE
  · rw [if_pos hs1] at h
    cases hg : read_region parseNvgiRegion source off with
    | mk e1 p1 =>
        rw [hg] at h
        cases e1 with
        | ok v =>
            simp only [Option.some.injEq, Prod.mk.injEq] at h
            obtain ⟨hr, hq⟩ := h
            have hlink := parseNvgiRegion_data_size (read_region_ok_inv hg)
            rw [← hr]
            refine ⟨by simp [RegionM.isRfrdRegion], ?_, ?_⟩
            · intro v' hv'
              simp only [RegionM.nvgiRegion.injEq] at hv'
              rw [← hv']
              simpa [RegionM.region_size] using hlink
            · intro _
              simp [RegionM.region_size, RegionM.region_size_field]
              omega
        | error e => simp at h
  · rw [if_neg hs1] at h
    by_cases hs2 : sig = RFRD_SIGNATURE
    · rw [if_pos hs2] at h
      cases hg : read_region parseRfrdRegion source off with
      | mk e1 p1 =>
          rw [hg] at h
          cases e1 with
          | ok v =>
              simp only [Option.some.injEq, Prod.mk.injEq] at h
              obtain ⟨hr, _⟩ := h
              rw [← hr]
              exact ⟨fun _ => rfl, by simp, by simp [RegionM.isRfrdRegion]⟩
          | error e => simp at h
    · rw [if_neg hs2] at h
      simp at h

/-- Every `Region` the probe loop yields satisfies the size shape; the
premature-exit arm of the iteration bound only ever yields `none`, so this
covers exactly the genuine scanner outputs. -/
theorem try_next_loop_size_invariant (source : List Nat) :
    ∀ gas pos r q, try_next_loop source gas pos = .ok (some r, q) →
      region_size_invariant r := by
  intro gas
  induction gas with
  | zero => intro pos r q h; simp [try_next_loop] at h
  | succ g ih =>
      intro pos r q h
      rw [try_next_loop] at h
      by_cases hcond : pos + 512 ≤ source.length
      · rw [if_pos hcond] at h
        dsimp only at h
        cases h2 : scan_two_byte source
            (((source.drop pos).take 512).take 2) pos with
        | some rq =>
            obtain ⟨r', q'⟩ := rq
            rw [h2] at h
            simp only [Except.ok.injEq, Prod.mk.injEq, Option.some.injEq] at h
            obtain ⟨hr, _⟩ := h
            rw [← hr]
            exact scan_two_byte_invariant h2
        | none =>
            rw [h2] at h
            cases h4 : scan_four_byte source
                (((source.drop pos).take 512).take 4) pos with
            | some rq =>
                obtain ⟨r', q'⟩ := rq
                rw [h4] at h
                simp only [Except.ok.injEq, Prod.mk.injEq, Option.some.injEq] at h
                obtain ⟨hr, _⟩ := h
                rw [← hr]
                exact scan_four_byte_invariant h4
            | none =>
                rw [h4] at h
                exact ih _ _ _ h
      · rw [if_neg hcond] at h
        simp at h

/-- Claim C3: a structural error during a speculative decode attempt leaves
the source rewound exactly to the probe start (`read_region` seeks back on
failure); the scan as a whole never turns a structural decode failure into
an error (in the byte-level model all `Seek`/`read_exact` primitives are
total, so `try_next` always returns `Ok`); and on a concrete blob whose
probe at 0 matches the 2-byte PCI signature but fails both speculative
decodes, the scan continues and yields the valid trailer marker at the next
512-byte stride. -/
theorem c3_speculative_rewind_nonfatal :
    (∀ (α : Type) (p : List Nat → Nat → Except String (α × Nat))
        (source : List Nat) (offset : Nat) (e : String),
        (read_region p source offset).1 = .error e →
        (read_region p source offset).2 = offset) ∧
    (∀ (source : List Nat) (pos : Nat),
        ∃ res, try_next source pos = .ok res) ∧
    (parseEfiPciExpansionRom corrupt_then_rfrd_data 0 =
        .error "assert failed: EFI signature" ∧
      parsePciExpansionRom corrupt_then_rfrd_data 0 =
        .error "assert failed: PCIR identifier" ∧
      try_next corrupt_then_rfrd_data 0 =
        .ok (some (.rfrdRegion ⟨512, ⟨RFRD_SIGNATURE, 0, 0, 0⟩⟩), 524)) := by
  refine ⟨?_, ?_, by decide, by decide, by decide⟩
  · intro α p source offset e h
    unfold read_region at h ⊢
    cases hp : p source offset with
    | ok w =>
        rw [hp] at h
        obtain ⟨v, q⟩ := w
        simp at h
    | error e2 => rfl
  · intro source pos
    exact try_next_loop_ok source _ _

/-- Witness for C3: on the zero-size NVGI blob the RFRD speculative decode
fails (wrong signature), and the theorem's rewind clause places the source
back at the probe start 0. -/
theorem c3_witness :
    (read_region parseRfrdRegion nvgi_zero_data 0).1 =
      .error "assert failed: RFRD signature" ∧
    (read_region parseRfrdRegion nvgi_zero_data 0).2 = 0 :=
  ⟨by decide,
    c3_speculative_rewind_nonfatal.1 RfrdRegionM parseRfrdRegion
      nvgi_zero_data 0 "assert failed: RFRD signature" (by decide)⟩

/-- Counterexample for C9 as stated: the scanner accepts an `NVGI` region
whose header `size` field is 0 and reports `region_size = 0` for it, so not
every non-RFRD Region produced by the scanner has `region_size > 0`. -/
theorem c9_counterexample :
    try_next nvgi_zero_data 0 =
      .ok (some (.nvgiRegion ⟨0, ⟨NVGI_SIGNATURE, 0, 0, 0⟩, 0, 12⟩), 12) ∧
    RegionM.region_size
      (.nvgiRegion ⟨0, ⟨NVGI_SIGNATURE, 0, 0, 0⟩, 0, 12⟩) = 0 ∧
    RegionM.isRfrdRegion
      (.nvgiRegion ⟨0, ⟨NVGI_SIGNATURE, 0, 0, 0⟩, 0, 12⟩) = false :=
  ⟨by decide, rfl, rfl⟩

/-- Claim C9, amended: every Region the scanner yields has its size
determined by its variant — the RFRD trailer marker has the fixed size 16,
an NVGI region's size equals its header `size` field, and every non-RFRD
variant's size is positive exactly when its internal length field is
nonzero; the scanner performs no positivity validation, so `region_size = 0`
regions occur. -/
theorem c9_region_size_amended (source : List Nat) (pos : Nat)
    (r : RegionM) (q : Nat) (h : try_next source pos = .ok (some r, q)) :
    region_size_invariant r :=
  try_next_loop_size_invariant source _ _ r q h

/-- Witness for the amended C9 at the concrete zero-size NVGI scan. -/
theorem c9_witness :
    region_size_invariant
      (.nvgiRegion ⟨0, ⟨NVGI_SIGNATURE, 0, 0, 0⟩, 0, 12⟩) :=
  c9_region_size_amended nvgi_zero_data 0 _ 12 (by decide)

/-! ## BIT / DCB structures consumed by `parse_legacy_pci_image_info`
(`src/nvidia/bit.rs`, `src/nvidia/dcb.rs`)

The pointer-chase dispatch of `src/firmware.rs` consults: the BIT token list
(id / data pointer per token), the pointer payload records of the String,
NvInit, Clock and Perf tokens, and the four followed pointers of the DCB
header.  The record layouts of the *followed* tables themselves
(StringToken, NvLinkConfigData, PllInfo, the perf tables, the GPIO/I2C/
connector/CCB tables) are external pluggable decoders to the dispatch — the
specification scopes them out ("the core only needs their (pointer-field →
decode-function) contract") — so they are modelled as opaque decoder
functions over the reader state (`ExtDecoders`), each returning a decode
outcome and the reader's raw position afterwards. -/

structure BITHeaderM where
  id : Nat
  signature : List Nat
  version_minor : Nat
  version_major : Nat
  header_size : Nat
  token_size : Nat
  token_entries : Nat
  header_checksum : Nat
deriving DecidableEq, Repr

structure BITTokenM where
  id : Nat
  data_version : Nat
  data_size : Nat
  data_pointer : Nat
deriving DecidableEq, Repr

structure BITStructureM where
  header : BITHeaderM
  tokens : List BITTokenM
deriving DecidableEq, Repr

structure StringPtrsTokenM where
  sign_on_message_ptr : Nat
  sign_on_message_maximum_length : Nat
  version_string_ptr : Nat
  version_string_size : Nat
  copyright_string_ptr : Nat
  copyright_string_size : Nat
  oem_string_ptr : Nat
  oem_string_size : Nat
  oem_vendor_name_ptr : Nat
  oem_vendor_name_size : Nat
  oem_product_name_ptr : Nat
  oem_product_name_size : Nat
  oem_product_revision_ptr : Nat
  oem_product_revision_size : Nat
deriving DecidableEq, Repr

structure NvinitPtrsTokenM where
  init_script_table_ptr : Nat
  macro_index_table_ptr : Nat
  macro_table_ptr : Nat
  condition_table_ptr : Nat
  io_condition_table_ptr : Nat
  io_flag_condition_table_ptr : Nat
  init_function_table_ptr : Nat
  vbios_private_boot_script_ptr : Nat
  data_arrays_table_ptr : Nat
  pcie_settings_script_ptr : Nat
  devinit_tables_ptr : Nat
  devinit_tables_size : Nat
  boot_scripts_ptr : Nat
  boot_scripts_size : Nat
  nvlink_configuration_data_ptr : Nat
  boot_scripts_non_gc6_ptr : Nat
  boot_scripts_size_non_gc6 : Nat
deriving DecidableEq, Repr

structure ClockPtrsTokenM where
  pll_info_table_ptr : Nat
  vbe_mode_pclk_table_ptr : Nat
  clocks_table_ptr : Nat
  clocks_programming_table_ptr : Nat
  nafll_table_ptr : Nat
  adc_table_ptr : Nat
  frequency_controller_table_ptr : Nat
deriving DecidableEq, Repr

structure PerfPtrsTokenM where
  performance_table_ptr : Nat
  memory_clock_table_ptr : Nat
  memory_tweak_table_ptr : Nat
  power_control_table_ptr : Nat
  thermal_control_table_ptr : Nat
  thermal_device_table_ptr : Nat
  thermal_coolers_table_ptr : Nat
  performance_settings_script_ptr : Nat
  continuous_virtual_binning_table_ptr : Nat
  ventura_table_ptr : Nat
  power_sensors_table_ptr : Nat
  power_policy_table_ptr : Nat
  p_state_clock_range_table_ptr : Nat
  voltage_frequency_table_ptr : Nat
  virtual_p_state_table_ptr : Nat
  power_topology_table_ptr : Nat
  power_leakage_table_ptr : Nat
  performance_test_specifications_table_ptr : Nat
  thermal_channel_table_ptr : Nat
  thermal_adjustment_table_ptr : Nat
  thermal_policy_table_ptr : Nat
  p_state_memory_clock_frequency_table_ptr : Nat
  fan_cooler_table_ptr : Nat
  fan_policy_table_ptr : Nat
  didt_table_ptr : Nat
  fan_test_table_ptr : Nat
  voltage_rail_table_ptr : Nat
  voltage_device_table_ptr : Nat
  voltage_policy_table_ptr : Nat
  low_power_table_ptr : Nat
  low_power_pcie_table_ptr : Nat
  low_power_pcie_platform_table_ptr : Nat
  low_power_gr_table_ptr : Nat
  low_power_ms_table_ptr : Nat
  low_power_di_table_ptr : Nat
  low_power_gc6_table_ptr : Nat
  low_power_psi_table_ptr : Nat
  thermal_monitor_table_ptr : Nat
  overclocking_table_ptr : Nat
  low_power_nvlink_table_ptr : Nat
deriving DecidableEq, Repr

/-- `BITTokenType` as seen by the dispatch loop: it pattern-matches only the
`String`, `NvInit`, `Clock` and `Perf` payload-carrying constructors (plus
`Nop`); the 16 remaining token kinds are handled uniformly by its wildcard
arm and are represented uniformly here, tagged with their token id. -/
inductive BITTokenTypeM where
  | nop
  | string (ptrs : StringPtrsTokenM)
  | nvinit (ptrs : NvinitPtrsTokenM)
  | clock (ptrs : ClockPtrsTokenM)
  | perf (ptrs : PerfPtrsTokenM)
  | otherTok (id : Nat) (v : Nat)
deriving DecidableEq, Repr

/-- The token ids of the uniformly-handled kinds in `BITToken::data`
(`0x32, 0x41, 0x42, 0x44, 0x4C, 0x4D, 0x52, 0x54, 0x55, 0x56, 0x63, 0x64,
0x6E, 0x70, 0x75, 0x78`); `0x4E` maps to `Nop` and the four inspected kinds
have their own arms. -/
def other_bit_token_ids : List Nat :=
  [0x32, 0x41, 0x42, 0x44, 0x4C, 0x4D, 0x52, 0x54, 0x55, 0x56,
   0x63, 0x64, 0x6E, 0x70, 0x75, 0x78]

def DCB_SIGNATURE : List Nat := [0xCB, 0xBD, 0xDC, 0x4E]

structure DeviceControlBlockHeaderM where
  offset_in_region : Nat
  version : Nat
  header_size : Nat
  entry_count : Nat
  entry_size : Nat
  communications_control_block_pointer : Nat
  signature : List Nat
  gpio_assignment_table_pointer : Nat
  input_devices_table_pointer : Nat
  personal_cinema_table_pointer : Nat
  spread_spectrum_table_pointer : Nat
  i2c_devices_table_pointer : Nat
  connector_table_pointer : Nat
  flags : Nat
  hdtv_translation_table_pointer : Nat
  switched_outputs_table_pointer : Nat
deriving DecidableEq, Repr

/-- `DeviceControlBlock`; the device entries are opaque to the dispatch
(nothing in `src/firmware.rs` reads them), so they are carried as opaque
values. -/
structure DeviceControlBlockM where
  offset_in_region : Nat
  header : DeviceControlBlockHeaderM
  unknown : Nat
  entries : List Nat
deriving DecidableEq, Repr

/-- `RegionStructure` (`src/lib.rs`): the two structure kinds the
byte-grain structure scanner yields. -/
inductive RegionStructureM where
  | biosInformationTable (b : BITStructureM)
  | deviceControlBlock (d : DeviceControlBlockM)
deriving DecidableEq, Repr

def RegionStructureM.isDcb : RegionStructureM → Bool
  | .deviceControlBlock _ => true
  | .biosInformationTable _ => false

/-! Decoded values of the external table decoders are opaque handles. -/

abbrev StringTokenV := Nat
abbrev NvLinkConfigDataV := Nat
abbrev PllInfoV := Nat
abbrev MemoryClockTableV := Nat
abbrev MemoryTweakTableV := Nat
abbrev VirtualPStateTableV := Nat
abbrev PowerPolicyTableV := Nat
abbrev GpioAssignmentTableV := Nat
abbrev I2cDevicesTableV := Nat
abbrev ConnectorTableV := Nat
abbrev CommunicationsControlBlockV := Nat

/-- The external per-schema decoders invoked by the dispatch (the
`read_le` / `read_le_args` calls of `src/firmware.rs` and `BITToken::data`).
Each is a function of the reader's raw position, returning the decode
outcome together with the reader's raw position afterwards. -/
structure ExtDecoders where
  stringPtrsDec : Nat → Except String StringPtrsTokenM × Nat
  nvinitPtrsDec : Nat → Except String NvinitPtrsTokenM × Nat
  clockPtrsDec : Nat → Except String ClockPtrsTokenM × Nat
  perfPtrsDec : Nat → Except String PerfPtrsTokenM × Nat
  otherTokenDec : Nat → Nat → Except String Nat × Nat
  stringTokenDec : StringPtrsTokenM → Nat → Except String StringTokenV × Nat
  nvlinkConfigDec : NvinitPtrsTokenM → Nat → Except String NvLinkConfigDataV × Nat
  pllInfoDec : ClockPtrsTokenM → Nat → Except String PllInfoV × Nat
  memoryClockTableDec : PerfPtrsTokenM → Nat → Except String MemoryClockTableV × Nat
  memoryTweakTableDec : PerfPtrsTokenM → Nat → Except String MemoryTweakTableV × Nat
  virtualPStateTableDec : PerfPtrsTokenM → Nat → Except String VirtualPStateTableV × Nat
  powerPolicyTableDec : PerfPtrsTokenM → Nat → Except String PowerPolicyTableV × Nat
  gpioAssignmentTableDec : Nat → Except String GpioAssignmentTableV × Nat
  i2cDevicesTableDec : Nat → Except String I2cDevicesTableV × Nat
  connectorTableDec : Nat → Except String ConnectorTableV × Nat
  communicationsControlBlockDec : Nat → Except String CommunicationsControlBlockV × Nat

/-- `LegacyPciImageInfo` (`src/firmware.rs`). -/
structure LegacyPciImageInfoM where
  image : PciExpansionRomM
  bit_table_structure : Option BITStructureM
  bit_tokens_data : List BITTokenTypeM
  bit_string_token : Option StringTokenV
  nvlink_config_data : Option NvLinkConfigDataV
  memory_clock_table : Option MemoryClockTableV
  memory_tweak_table : Option MemoryTweakTableV
  pll_info : Option PllInfoV
  power_policy_table : Option PowerPolicyTableV
  virtual_p_state_table : Option VirtualPStateTableV
  device_control_block : Option DeviceControlBlockM
  gpio_assignment_table : Option GpioAssignmentTableV
  i2c_devices_table : Option I2cDevicesTableV
  connector_table : Option ConnectorTableV
  communications_control_block : Option CommunicationsControlBlockV
deriving DecidableEq, Repr

/-- The `LegacyPciImageInfo { image: legacy, … }` literal of
`FirmwareBundleInfo::parse`: every table field starts empty. -/
def legacy_pci_image_info_init (image : PciExpansionRomM) :
    LegacyPciImageInfoM :=
  ⟨image, none, [], none, none, none, none, none, none, none, none, none,
   none, none, none⟩

/-! ## `BITToken::data` and the pointer-chase dispatch
(`src/nvidia/bit.rs`, `src/firmware.rs`)

The reader in play is the `ContinuousRegionReader` over the unit's regions;
its observable state is its raw position, and `seek(SeekFrom::Start(p))`
places it at `raw_position_of regions p`. -/

/-- `BITToken::data`: a zero `data_pointer` yields `Nop` without touching
the reader; otherwise seek the reader to the pointer and decode the payload
selected by the token id (unknown ids are an `InvalidFormat` error). -/
def bit_token_data (env : ExtDecoders) (regions : List FirmwareRegion)
    (t : BITTokenM) (pos : Nat) : Except String BITTokenTypeM × Nat :=
  if t.data_pointer = 0 then (.ok .nop, pos)
  else
    let raw := ContinuousRegionReader.raw_position_of regions t.data_pointer
    match t.id with
    | 0x43 => let (r, p) := env.clockPtrsDec raw; (r.map .clock, p)
    | 0x49 => let (r, p) := env.nvinitPtrsDec raw; (r.map .nvinit, p)
    | 0x4E => (.ok .nop, raw)
    | 0x50 => let (r, p) := env.perfPtrsDec raw; (r.map .perf, p)
    | 0x53 => let (r, p) := env.stringPtrsDec raw; (r.map .string, p)
    | i =>
        if i ∈ other_bit_token_ids then
          let (r, p) := env.otherTokenDec i raw
          (r.map (.otherTok i), p)
        else (.error "Unexpected BIT token id", raw)

/-- The four guarded sub-table reads of the `Perf` arm, in source order
(memory clock, memory tweak, virtual P-state, power policy): a zero pointer
skips the read, a decode failure propagates (the `?` operator). -/
def perf_sub_tables (env : ExtDecoders) (ptrs : PerfPtrsTokenM)
    (info : LegacyPciImageInfoM) (pos : Nat) :
    Except String (LegacyPciImageInfoM × Nat) :=
  match (if ptrs.memory_clock_table_ptr > 0 then
      let (r, p) := env.memoryClockTableDec ptrs pos
      match r with
      | .error e => .error e
      | .ok v => .ok ({ info with memory_clock_table := some v }, p)
    else .ok (info, pos) :
      Except String (LegacyPciImageInfoM × Nat)) with
  | .error e => .error e
  | .ok (info, pos) =>
  match (if ptrs.memory_tweak_table_ptr > 0 then
      let (r, p) := env.memoryTweakTableDec ptrs pos
      match r with
      | .error e => .error e
      | .ok v => .ok ({ info with memory_tweak_table := some v }, p)
    else .ok (info, pos) :
      Except String (LegacyPciImageInfoM × Nat)) with
  | .error e => .error e
  | .ok (info, pos) =>
  match (if ptrs.virtual_p_state_table_ptr > 0 then
      let (r, p) := env.virtualPStateTableDec ptrs pos
      match r with
      | .error e => .error e
      | .ok v => .ok ({ info with virtual_p_state_table := some v }, p)
    else .ok (info, pos) :
      Except String (LegacyPciImageInfoM × Nat)) with
  | .error e => .error e
  | .ok (info, pos) =>
  if ptrs.power_policy_table_ptr > 0 then
    let (r, p) := env.powerPolicyTableDec ptrs pos
    match r with
    | .error e => .error e
    | .ok v => .ok ({ info with power_policy_table := some v }, p)
  else .ok (info, pos)

/-- The `for token in &bit.tokens` loop of `parse_legacy_pci_image_info`:
run `BITToken::data`; on the `String`/`NvInit`/`Clock`/`Perf` payloads
follow with the corresponding sub-table decode whose failure propagates
(`?`); a failure of `BITToken::data` itself is only logged (`warn!`) and the
loop continues; each successfully decoded token value is appended to
`bit_tokens_data`. -/
def process_bit_tokens (env : ExtDecoders) (regions : List FirmwareRegion) :
    List BITTokenM → LegacyPciImageInfoM → Nat →
    Except String (LegacyPciImageInfoM × Nat)
  | [], info, pos => .ok (info, pos)
  | t :: ts, info, pos =>
    let (token_res, pos1) := bit_token_data env regions t pos
    let step : Except String (LegacyPciImageInfoM × Nat) :=
      match token_res with
      | .ok (.string ptrs) =>
          let (r, p) := env.stringTokenDec ptrs pos1
          match r with
          | .error e => .error e
          | .ok v => .ok ({ info with bit_string_token := some v }, p)
      | .ok (.nvinit ptrs) =>
          let (r, p) := env.nvlinkConfigDec ptrs pos1
          match r with
          | .error e => .error e
          | .ok v => .ok ({ info with nvlink_config_data := some v }, p)
      | .ok (.clock ptrs) =>
          let (r, p) := env.pllInfoDec ptrs pos1
          match r with
          | .error e => .error e
          | .ok v => .ok ({ info with pll_info := some v }, p)
      | .ok (.perf ptrs) => perf_sub_tables env ptrs info pos1
      | .ok _ => .ok (info, pos1)
      | .error _ => .ok (info, pos1)
    match step with
    | .error e => .error e
    | .ok (info2, pos2) =>
        let info3 :=
          match token_res with
          | .ok v => { info2 with bit_tokens_data := info2.bit_tokens_data ++ [v] }
          | .error _ => info2
        process_bit_tokens env regions ts info3 pos2

/-- One guarded DCB pointer follow (the repeated
`if ptr > 0 { seek(Start(ptr)); read_le::<T>()?; replace }` block of the
DCB arm). -/
def dcb_pointer_step {V : Type} (regions : List FirmwareRegion) (ptr : Nat)
    (dec : Nat → Except String V × Nat)
    (set : LegacyPciImageInfoM → V → LegacyPciImageInfoM)
    (info : LegacyPciImageInfoM) (pos : Nat) :
    Except String (LegacyPciImageInfoM × Nat) :=
  if ptr > 0 then
    let raw := ContinuousRegionReader.raw_position_of regions ptr
    let (r, p) := dec raw
    match r with
    | .error e => .error e
    | .ok v => .ok (set info v, p)
  else .ok (info, pos)

/-- The `DeviceControlBlock` arm of the structures loop: follow the GPIO,
I2C-devices, connector and CCB pointers in source order (zero skips,
failure propagates), then record the DCB itself. -/
def process_dcb_branch (env : ExtDecoders) (regions : List FirmwareRegion)
    (d : DeviceControlBlockM) (info : LegacyPciImageInfoM) (pos : Nat) :
    Except String (LegacyPciImageInfoM × Nat) :=
  match dcb_pointer_step regions d.header.gpio_assignment_table_pointer
      env.gpioAssignmentTableDec
      (fun i v => { i with gpio_assignment_table := some v }) info pos with
  | .error e => .error e
  | .ok (info, pos) =>
  match dcb_pointer_step regions d.header.i2c_devices_table_pointer
      env.i2cDevicesTableDec
      (fun i v => { i with i2c_devices_table := some v }) info pos with
  | .error e => .error e
  | .ok (info, pos) =>
  match dcb_pointer_step regions d.header.connector_table_pointer
      env.connectorTableDec
      (fun i v => { i with connector_table := some v }) info pos with
  | .error e => .error e
  | .ok (info, pos) =>
  match dcb_pointer_step regions d.header.communications_control_block_pointer
      env.communicationsControlBlockDec
      (fun i v => { i with communications_control_block := some v }) info pos with
  | .error e => .error e
  | .ok (info, pos) => .ok ({ info with device_control_block := some d }, pos)

/-- The `'structures_iteration` loop of `parse_legacy_pci_image_info` over
the collected structure sequence: a BIT structure has all its tokens
processed and is recorded (last BIT wins), then the loop continues; the
first DCB structure has its pointers chased, is recorded, and the loop
breaks — everything after it is ignored. -/
def process_structures (env : ExtDecoders) (regions : List FirmwareRegion) :
    List RegionStructureM → LegacyPciImageInfoM → Nat →
    Except String (LegacyPciImageInfoM × Nat)
  | [], info, pos => .ok (info, pos)
  | .biosInformationTable b :: rest, info, pos =>
      match process_bit_tokens env regions b.tokens info pos with
      | .error e => .error e
      | .ok (info1, pos1) =>
          process_structures env regions rest
            { info1 with bit_table_structure := some b } pos1
  | .deviceControlBlock d :: _, info, pos =>
      process_dcb_branch env regions d info pos

/-! ## `FirmwareBundleInfo::parse` — the bundle assembler (`src/firmware.rs`) -/

/-- `FirmwareInfo` (one firmware unit). -/
structure FirmwareInfoM where
  nvgi_regions : List NvgiRegionM
  rfrd_region : Option RfrdRegionM
  legacy_pci_image : Option LegacyPciImageInfoM
  efi_pci_image : Option EfiPciExpansionRomM
  nv_pci_expansion_roms : List NvidiaPciExpansionRomM
deriving DecidableEq, Repr

/-- `FirmwareInfo::default()`. -/
def firmware_info_default : FirmwareInfoM := ⟨[], none, none, none, []⟩

/-- The mutable state of the region-consuming loop of
`FirmwareBundleInfo::parse`: the bundle-level NBSI slot, the in-progress
unit, and the sealed units. -/
structure FirmwareParseState where
  nbsi_pci_expansion_rom : Option NbsiPciExpansionRomM
  firmware : FirmwareInfoM
  firmwares : List FirmwareInfoM
deriving DecidableEq, Repr

def firmware_parse_state_init : FirmwareParseState :=
  ⟨none, firmware_info_default, []⟩

/-- The `match region` arm of the loop body of `FirmwareBundleInfo::parse`. -/
def parse_region_step (st : FirmwareParseState) : RegionM → FirmwareParseState
  | .legacyPciExpansionRom legacy =>
      { st with firmware :=
          { st.firmware with
              legacy_pci_image := some (legacy_pci_image_info_init legacy) } }
  | .efiPciExpansionRom efi =>
      { st with firmware := { st.firmware with efi_pci_image := some efi } }
  | .nvidiaPciExpansionRom nv =>
      { st with firmware :=
          { st.firmware with nv_pci_expansion_roms :=
              st.firmware.nv_pci_expansion_roms ++ [nv] } }
  | .nbsiPciExpansionRom nbsi =>
      { st with nbsi_pci_expansion_rom := some nbsi }
  | .nvgiRegion nvgi =>
      if st.firmware.rfrd_region.isSome then
        { st with
            firmwares := st.firmwares ++ [st.firmware],
            firmware := { firmware_info_default with nvgi_regions := [nvgi] } }
      else
        { st with firmware :=
            { st.firmware with nvgi_regions :=
                st.firmware.nvgi_regions ++ [nvgi] } }
  | .rfrdRegion rfrd =>
      { st with firmware := { st.firmware with rfrd_region := some rfrd } }

/-- The `while let Some(region) = region_iterator.try_next()?` loop over the
region sequence. -/
def parse_regions_loop (st : FirmwareParseState) :
    List RegionM → FirmwareParseState
  | [] => st
  | r :: rs => parse_regions_loop (parse_region_step st r) rs

/-- The grouping phase of `FirmwareBundleInfo::parse`: consume the Region
stream, then seal the in-progress unit — complete or not — with the final
`firmwares.push(mem::replace(&mut firmware, default()))`.  Returns the
sealed units in order and the bundle-level NBSI slot.  (The subsequent
per-unit `parse_legacy_pci_image_info` pass mutates only the units'
extracted-table fields and is modelled by `process_structures`.) -/
def parse_group_regions (rs : List RegionM) :
    List FirmwareInfoM × Option NbsiPciExpansionRomM :=
  let st := parse_regions_loop firmware_parse_state_init rs
  (st.firmwares ++ [st.firmware], st.nbsi_pci_expansion_rom)

/-- The last auxiliary-directory region of the stream, if any (the value the
claim says the bundle-level slot must hold). -/
def last_nbsi : List RegionM → Option NbsiPciExpansionRomM
  | [] => none
  | r :: rs =>
      match last_nbsi rs with
      | some n => some n
      | none =>
          match r with
          | .nbsiPciExpansionRom n => some n
          | _ => none

/-! ## Concrete fixtures for the dispatch and assembler claims -/

def string_ptrs_zero : StringPtrsTokenM :=
  ⟨0, 0, 0, 0, 0, 0, 0, 0, 0, 0, 0, 0, 0, 0⟩

def nvinit_ptrs_zero : NvinitPtrsTokenM :=
  ⟨0, 0, 0, 0, 0, 0, 0, 0, 0, 0, 0, 0, 0, 0, 0, 0, 0⟩

def clock_ptrs_zero : ClockPtrsTokenM := ⟨0, 0, 0, 0, 0, 0, 0⟩

def perf_ptrs_zero : PerfPtrsTokenM :=
  ⟨0, 0, 0, 0, 0, 0, 0, 0, 0, 0, 0, 0, 0, 0, 0, 0, 0, 0, 0, 0,
   0, 0, 0, 0, 0, 0, 0, 0, 0, 0, 0, 0, 0, 0, 0, 0, 0, 0, 0, 0⟩

def pci_data_header_zero : PciExpansionRomDataHeaderM :=
  ⟨[], 0, 0, 0, 0, 0, [], 0, 0, 0, 0, 0, 0, 0⟩

def pci_rom_zero : PciExpansionRomM :=
  ⟨0, ⟨[], 0, [], [], 0⟩, pci_data_header_zero, none, []⟩

def info_zero : LegacyPciImageInfoM := legacy_pci_image_info_init pci_rom_zero

def dcb_header_zero : DeviceControlBlockHeaderM :=
  ⟨0, 0, 0, 0, 0, 0, DCB_SIGNATURE, 0, 0, 0, 0, 0, 0, 0, 0, 0⟩

def dcb_all_zero : DeviceControlBlockM := ⟨0, dcb_header_zero, 0, []⟩

def dcb_header_gpio_one : DeviceControlBlockHeaderM :=
  ⟨0, 0, 0, 0, 0, 0, DCB_SIGNATURE, 1, 0, 0, 0, 0, 0, 0, 0, 0⟩

def dcb_gpio_one : DeviceControlBlockM := ⟨0, dcb_header_gpio_one, 0, []⟩

def bit_empty : BITStructureM := ⟨⟨0, [], 0, 0, 0, 0, 0, 0⟩, []⟩

/-- An environment where every external decoder succeeds in place. -/
def env_ok : ExtDecoders :=
  ⟨fun p => (.ok string_ptrs_zero, p),
   fun p => (.ok nvinit_ptrs_zero, p),
   fun p => (.ok clock_ptrs_zero, p),
   fun p => (.ok perf_ptrs_zero, p),
   fun _ p => (.ok 0, p),
   fun _ p => (.ok 0, p),
   fun _ p => (.ok 0, p),
   fun _ p => (.ok 0, p),
   fun _ p => (.ok 0, p),
   fun _ p => (.ok 0, p),
   fun _ p => (.ok 0, p),
   fun _ p => (.ok 0, p),
   fun p => (.ok 0, p),
   fun p => (.ok 0, p),
   fun p => (.ok 0, p),
   fun p => (.ok 0, p)⟩

/-- Like `env_ok` except the GPIO assignment table decoder fails. -/
def env_gpio_fails : ExtDecoders :=
  { env_ok with gpioAssignmentTableDec :=
      fun p => (.error "malformed GPIO assignment table", p) }

def rfrd1 : RfrdRegionM := ⟨512, ⟨RFRD_SIGNATURE, 0, 0, 0⟩⟩

def nvgi1 : NvgiRegionM := ⟨0, ⟨NVGI_SIGNATURE, 0, 0, 0⟩, 0, 12⟩

/-- A parse state whose in-progress unit already has its trailer marker. -/
def st_sealed : FirmwareParseState :=
  ⟨none, { firmware_info_default with rfrd_region := some rfrd1 }, []⟩

/-! ## Helper lemmas about the assembler step and loop -/

lemma parse_region_step_nvgi_pos (st : FirmwareParseState) (x : NvgiRegionM)
    (h : st.firmware.rfrd_region.isSome = true) :
    parse_region_step st (.nvgiRegion x) =
      { st with firmwares := st.firmwares ++ [st.firmware],
                firmware := { firmware_info_default with nvgi_regions := [x] } } := by
  simp [parse_region_step, h]

lemma parse_region_step_nvgi_neg (st : FirmwareParseState) (x : NvgiRegionM)
    (h : st.firmware.rfrd_region.isSome = false) :
    parse_region_step st (.nvgiRegion x) =
      { st with firmware :=
          { st.firmware with
              nvgi_regions := st.firmware.nvgi_regions ++ [x] } } := by
  simp [parse_region_step, h]

lemma parse_region_step_nbsi (st : FirmwareParseState) (r : RegionM) :
    (parse_region_step st r).nbsi_pci_expansion_rom =
      match r with
      | .nbsiPciExpansionRom n => some n
      | _ => st.nbsi_pci_expansion_rom := by
  cases r with
  | legacyPciExpansionRom x => rfl
  | efiPciExpansionRom x => rfl
  | nvidiaPciExpansionRom x => rfl
  | nbsiPciExpansionRom x => rfl
  | nvgiRegion x =>
      simp only [parse_region_step]
      split <;> rfl
  | rfrdRegion x => rfl

lemma parse_regions_loop_nbsi (rs : List RegionM) :
    ∀ st : FirmwareParseState,
      (parse_regions_loop st rs).nbsi_pci_expansion_rom =
        match last_nbsi rs with
        | some n => some n
        | none => st.nbsi_pci_expansion_rom := by
  induction rs with
  | nil => intro st; rfl
  | cons r rs ih =>
      intro st
      simp only [parse_regions_loop, ih, parse_region_step_nbsi, last_nbsi]
      cases hl : last_nbsi rs with
      | some n => rfl
      | none => cases r <;> rfl

/-! ## Claim theorems C7, C8, C1 -/

/-- C7: BundleAssembler grouping.  (1) An NVGI region seals the current unit
(appending it to the output) and opens a new unit carrying exactly that
marker, leaving the bundle-level NBSI slot untouched, when the current unit
already has its RFRD close marker; (2) otherwise it attaches to the
still-open unit and nothing is sealed; (3) the bundle-level NBSI slot of the
grouping phase holds the last NBSI region of the stream (later occurrences
replace earlier ones); (4) at end of input the in-progress unit — complete
or not — is sealed and appended as the last element of the output list. -/
theorem c7_bundle_grouping :
    (∀ (st : FirmwareParseState) (x : NvgiRegionM),
        st.firmware.rfrd_region.isSome = true →
          (parse_region_step st (.nvgiRegion x)).firmwares =
              st.firmwares ++ [st.firmware] ∧
          (parse_region_step st (.nvgiRegion x)).firmware =
              { firmware_info_default with nvgi_regions := [x] } ∧
          (parse_region_step st (.nvgiRegion x)).nbsi_pci_expansion_rom =
              st.nbsi_pci_expansion_rom) ∧
    (∀ (st : FirmwareParseState) (x : NvgiRegionM),
        st.firmware.rfrd_region.isSome = false →
          (parse_region_step st (.nvgiRegion x)).firmwares = st.firmwares ∧
          (parse_region_step st (.nvgiRegion x)).firmware =
              { st.firmware with
                  nvgi_regions := st.firmware.nvgi_regions ++ [x] }) ∧
    (∀ rs : List RegionM, (parse_group_regions rs).2 = last_nbsi rs) ∧
    (∀ rs : List RegionM,
        (parse_group_regions rs).1.getLast? =
          some (parse_regions_loop firmware_parse_state_init rs).firmware) := by
  refine ⟨?_, ?_, ?_, ?_⟩
  · intro st x h
    rw [parse_region_step_nvgi_pos st x h]
    exact ⟨rfl, rfl, rfl⟩
  · intro st x h
    rw [parse_region_step_nvgi_neg st x h]
    exact ⟨rfl, rfl⟩
  · intro rs
    show (parse_regions_loop firmware_parse_state_init rs).nbsi_pci_expansion_rom
        = last_nbsi rs
    rw [parse_regions_loop_nbsi rs firmware_parse_state_init]
    cases hl : last_nbsi rs with
    | some n => rfl
    | none => rfl
  · intro rs
    exact List.getLast?_concat _

theorem c7_witness :
    (parse_region_step st_sealed (.nvgiRegion nvgi1)).firmwares =
        st_sealed.firmwares ++ [st_sealed.firmware] ∧
    (parse_region_step firmware_parse_state_init (.nvgiRegion nvgi1)).firmware =
        { firmware_parse_state_init.firmware with
            nvgi_regions :=
              firmware_parse_state_init.firmware.nvgi_regions ++ [nvgi1] } :=
  ⟨(c7_bundle_grouping.1 st_sealed nvgi1 rfl).1,
   (c7_bundle_grouping.2.1 firmware_parse_state_init nvgi1 rfl).2⟩

/-- C8: StructureScanner stop policy.  (1) Everything after the first
DeviceControlBlock structure contributes nothing: the result of the
structures loop is unchanged under arbitrary replacement of the suffix
following the first DCB; (2) any number of BIT structures is processed
without stopping: over a DCB-free prefix the loop decomposes sequentially,
so scanning continues past every BIT; (3) the DCB the loop stops at is the
one recorded in the unit's `device_control_block` field. -/
theorem c8_structure_stop_policy :
    (∀ (env : ExtDecoders) (regions : List FirmwareRegion)
        (as : List RegionStructureM) (d : DeviceControlBlockM)
        (rest rest' : List RegionStructureM) (info : LegacyPciImageInfoM)
        (pos : Nat),
        process_structures env regions (as ++ .deviceControlBlock d :: rest)
            info pos =
          process_structures env regions (as ++ .deviceControlBlock d :: rest')
            info pos) ∧
    (∀ (env : ExtDecoders) (regions : List FirmwareRegion)
        (as ys : List RegionStructureM) (info : LegacyPciImageInfoM)
        (pos : Nat),
        (∀ s ∈ as, s.isDcb = false) →
          process_structures env regions (as ++ ys) info pos =
            match process_structures env regions as info pos with
            | .error e => .error e
            | .ok (i, p) => process_structures env regions ys i p) ∧
    (∀ (env : ExtDecoders) (regions : List FirmwareRegion)
        (d : DeviceControlBlockM) (info : LegacyPciImageInfoM) (pos : Nat)
        (info' : LegacyPciImageInfoM) (pos' : Nat),
        process_dcb_branch env regions d info pos = .ok (info', pos') →
          info'.device_control_block = some d) := by
  refine ⟨?_, ?_, ?_⟩
  · intro env regions as d rest rest' info pos
    induction as generalizing info pos with
    | nil => rfl
    | cons s as ih =>
        cases s with
        | biosInformationTable b =>
            simp only [List.cons_append, process_structures]
            cases hx : process_bit_tokens env regions b.tokens info pos with
            | error e => rfl
            | ok ip =>
                obtain ⟨i1, p1⟩ := ip
                exact ih _ _
        | deviceControlBlock d' => rfl
  · intro env regions as ys
    induction as with
    | nil => intro info pos h; rfl
    | cons s as ih =>
        intro info pos h
        cases s with
        | biosInformationTable b =>
            simp only [List.cons_append, process_structures]
            cases hx : process_bit_tokens env regions b.tokens info pos with
            | error e => rfl
            | ok ip =>
                obtain ⟨i1, p1⟩ := ip
                exact ih _ _ (fun s hs => h s (List.mem_cons_of_mem _ hs))
        | deviceControlBlock d' =>
            exact absurd (h _ (List.mem_cons_self _ _))
              (by simp [RegionStructureM.isDcb])
  · intro env regions d info pos info' pos' h
    simp only [process_dcb_branch] at h
    split at h
    · exact Except.noConfusion h
    · split at h
      · exact Except.noConfusion h
      · split at h
        · exact Except.noConfusion h
        · split at h
          · exact Except.noConfusion h
          · injection h with h2
            injection h2 with h3 h4
            rw [← h3]

theorem c8_witness :
    process_structures env_ok []
        ([] ++ .deviceControlBlock dcb_all_zero ::
          [.deviceControlBlock dcb_gpio_one]) info_zero 0 =
      process_structures env_ok []
        ([] ++ .deviceControlBlock dcb_all_zero :: []) info_zero 0 ∧
    process_structures env_ok []
        ([.biosInformationTable bit_empty] ++
          [.deviceControlBlock dcb_all_zero]) info_zero 0 =
      (match process_structures env_ok [] [.biosInformationTable bit_empty]
          info_zero 0 with
       | .error e => .error e
       | .ok (i, p) =>
           process_structures env_ok [] [.deviceControlBlock dcb_all_zero] i p) ∧
    ({ info_zero with device_control_block := some dcb_all_zero} :
        LegacyPciImageInfoM).device_control_block = some dcb_all_zero :=
  ⟨c8_structure_stop_policy.1 env_ok [] [] dcb_all_zero
      [.deviceControlBlock dcb_gpio_one] [] info_zero 0,
   c8_structure_stop_policy.2.1 env_ok [] [.biosInformationTable bit_empty]
      [.deviceControlBlock dcb_all_zero] info_zero 0 (by decide),
   c8_structure_stop_policy.2.2 env_ok [] dcb_all_zero info_zero 0
      { info_zero with device_control_block := some dcb_all_zero } 0 rfl⟩

/-- C1 counterexample: the claim says a sub-table decoder failure is
non-fatal (logged, field left empty, processing continues), but with the
GPIO assignment table decoder failing, processing the unit's structure
list aborts with that very error (the `?` operator in the DCB arm). -/
theorem c1_counterexample :
    process_structures env_gpio_fails [] [.deviceControlBlock dcb_gpio_one]
        info_zero 0 = .error "malformed GPIO assignment table" := rfl

/-- C1 (amended): pointer-chase handling.  (1) A BIT token with a zero
`data_pointer` is a `Nop` and the reader is untouched; (2) a DCB whose four
sub-table pointers are all zero has every field skipped and left absent,
with only the DCB itself recorded; (3) a nonzero GPIO pointer causes a seek
to the pointer's mapped raw position and an invocation of the decoder,
whose successful result is recorded; (4) a failure of `BITToken::data`
itself is non-fatal: the token is skipped and the loop continues; BUT,
contrary to the claim, (5) a failure of a followed sub-table decoder is
fatal: a failing String-token sub-read aborts the token loop with the
error, and (6) a failing GPIO sub-read aborts the whole structures loop
with the error — sibling fields and the enclosing unit's processing do NOT
continue. -/
theorem c1_pointer_chase_amended :
    (∀ (env : ExtDecoders) (regions : List FirmwareRegion) (t : BITTokenM)
        (pos : Nat),
        t.data_pointer = 0 →
          bit_token_data env regions t pos = (.ok .nop, pos)) ∧
    (∀ (env : ExtDecoders) (regions : List FirmwareRegion)
        (d : DeviceControlBlockM) (info : LegacyPciImageInfoM) (pos : Nat),
        d.header.gpio_assignment_table_pointer = 0 →
        d.header.i2c_devices_table_pointer = 0 →
        d.header.connector_table_pointer = 0 →
        d.header.communications_control_block_pointer = 0 →
          process_dcb_branch env regions d info pos =
            .ok ({ info with device_control_block := some d }, pos)) ∧
    (∀ (env : ExtDecoders) (regions : List FirmwareRegion)
        (d : DeviceControlBlockM) (info : LegacyPciImageInfoM) (pos : Nat)
        (v : GpioAssignmentTableV) (p' : Nat),
        d.header.gpio_assignment_table_pointer > 0 →
        env.gpioAssignmentTableDec
            (ContinuousRegionReader.raw_position_of regions
              d.header.gpio_assignment_table_pointer) = (.ok v, p') →
        d.header.i2c_devices_table_pointer = 0 →
        d.header.connector_table_pointer = 0 →
        d.header.communications_control_block_pointer = 0 →
          process_dcb_branch env regions d info pos =
            .ok ({ info with gpio_assignment_table := some v,
                             device_control_block := some d }, p')) ∧
    (∀ (env : ExtDecoders) (regions : List FirmwareRegion) (t : BITTokenM)
        (ts : List BITTokenM) (info : LegacyPciImageInfoM) (pos : Nat)
        (e : String) (p1 : Nat),
        bit_token_data env regions t pos = (.error e, p1) →
          process_bit_tokens env regions (t :: ts) info pos =
            process_bit_tokens env regions ts info p1) ∧
    (∀ (env : ExtDecoders) (regions : List FirmwareRegion) (t : BITTokenM)
        (ts : List BITTokenM) (info : LegacyPciImageInfoM) (pos : Nat)
        (ptrs : StringPtrsTokenM) (e : String) (p1 p' : Nat),
        bit_token_data env regions t pos = (.ok (.string ptrs), p1) →
        env.stringTokenDec ptrs p1 = (.error e, p') →
          process_bit_tokens env regions (t :: ts) info pos = .error e) ∧
    (∀ (env : ExtDecoders) (regions : List FirmwareRegion)
        (d : DeviceControlBlockM) (rest : List RegionStructureM)
        (info : LegacyPciImageInfoM) (pos : Nat) (e : String) (p' : Nat),
        d.header.gpio_assignment_table_pointer > 0 →
        env.gpioAssignmentTableDec
            (ContinuousRegionReader.raw_position_of regions
              d.header.gpio_assignment_table_pointer) = (.error e, p') →
          process_structures env regions (.deviceControlBlock d :: rest)
            info pos = .error e) := by
  refine ⟨?_, ?_, ?_, ?_, ?_, ?_⟩
  · intro env regions t pos h
    simp [bit_token_data, h]
  · intro env regions d info pos h1 h2 h3 h4
    simp [process_dcb_branch, dcb_pointer_step, h1, h2, h3, h4]
  · intro env regions d info pos v p' h1 hdec h2 h3 h4
    simp [process_dcb_branch, dcb_pointer_step, h1, hdec, h2, h3, h4]
  · intro env regions t ts info pos e p1 h
    simp only [process_bit_tokens, h]
  · intro env regions t ts info pos ptrs e p1 p' hbt hdec
    simp only [process_bit_tokens, hbt, hdec]
  · intro env regions d rest info pos e p' h1 hdec
    show process_dcb_branch env regions d info pos = .error e
    simp [process_dcb_branch, dcb_pointer_step, h1, hdec]

theorem c1_witness :
    process_dcb_branch env_ok [] dcb_gpio_one info_zero 5 =
      .ok ({ info_zero with
               gpio_assignment_table := some 0,
               device_control_block := some dcb_gpio_one },
           ContinuousRegionReader.raw_position_of [] 1) ∧
    process_structures env_gpio_fails []
        [.deviceControlBlock dcb_gpio_one] info_zero 5 =
      .error "malformed GPIO assignment table" :=
  ⟨c1_pointer_chase_amended.2.2.1 env_ok [] dcb_gpio_one info_zero 5 0
      (ContinuousRegionReader.raw_position_of [] 1) (by decide) rfl rfl rfl rfl,
   c1_pointer_chase_amended.2.2.2.2.2 env_gpio_fails [] dcb_gpio_one []
      info_zero 5 "malformed GPIO assignment table"
      (ContinuousRegionReader.raw_position_of [] 1) (by decide) rfl⟩

end NvRom
